import Mathlib

/-!
Verification development for the llimit task-execution gateway.

The Python sources are shallowly embedded in Lean: pure functions become Lean
functions, stateful repository code becomes explicit state passing over a
`DB` value, Python exceptions become `Except PyErr`, machine floats become `ℚ`
(the claims under study only involve exact decimal arithmetic), and `datetime`
values become `Nat` timestamps.  Each definition mirrors the source function of
the same (snake_case) name; definitions that embed code absent from the
repository snapshot carry a doc comment starting with "Modelled from the
spec:".
-/

namespace Llimit

/-- Python exception values, as far as the embedded code distinguishes them. -/
inductive PyErr where
  | typeError (msg : String)
  | attributeError (msg : String)
  | valueError (msg : String)
  | keyError (msg : String)
  | httpError (status : Nat) (msg : String)
  | taskStepExecutionError (msg : String)
  | taskModelSelectionError (msg : String)
  | taskDecompositionError (msg : String)
  deriving DecidableEq, Repr

/-- Decidable equality of embedded fallible results (used to evaluate the
embedded code on concrete inputs). -/
instance exceptDecEq {ε α : Type} [DecidableEq ε] [DecidableEq α] :
    DecidableEq (Except ε α) := fun a b =>
  match a, b with
  | .ok x, .ok y =>
    if h : x = y then isTrue (by rw [h]) else isFalse (by intro hc; cases hc; exact h rfl)
  | .error x, .error y =>
    if h : x = y then isTrue (by rw [h]) else isFalse (by intro hc; cases hc; exact h rfl)
  | .ok _, .error _ => isFalse (by intro hc; cases hc)
  | .error _, .ok _ => isFalse (by intro hc; cases hc)

/-! ## Event bus (src/app/services/sse_service.py) -/

/-- An SSE event as the bus sees it: `SseEvent` with `event_type` and a
metadata dict (modelled as an association list with distinct keys). -/
structure SseEvent where
  event_type : String
  metadata : List (String × String)
  deriving DecidableEq, Repr

/-- `EventFilter.__init__`: `event_types` is `None` for "all types";
`metadata_filters` maps a metadata key to the list of allowed values
(`metadata_filters or {}` is modelled by the list being empty). -/
structure EventFilter where
  event_types : Option (List String)
  metadata_filters : List (String × List String)
  deriving DecidableEq, Repr

/-- Python `dict.get(key)` on the event metadata. -/
def metadata_get (m : List (String × String)) (k : String) : Option String :=
  (m.find? (fun p => p.1 == k)).map (·.2)

/-- `EventFilter.matches`: returns `False` when `event_types` is not `None`
and does not contain the event type; then, for every metadata filter key with
a non-empty allowed list, returns `False` when the event metadata value for
that key is present and not in the list; otherwise `True`. -/
def EventFilter.matches (f : EventFilter) (e : SseEvent) : Bool :=
  (match f.event_types with
   | some ts => ts.contains e.event_type
   | none => true)
  && f.metadata_filters.all (fun kv =>
      if kv.2.isEmpty then true
      else
        match metadata_get e.metadata kv.1 with
        | none => true
        | some v => kv.2.contains v)

/-- An SSE connection: per-connection FIFO queue plus its filter. -/
structure SseConnection where
  user_id : String
  connection_id : String
  filter : EventFilter
  queue : List SseEvent
  deriving DecidableEq, Repr

/-- `SseConnection.send`: enqueue the event iff the filter matches. -/
def SseConnection.send (c : SseConnection) (e : SseEvent) : SseConnection :=
  if c.filter.matches e then { c with queue := c.queue ++ [e] } else c

/-- The `SseService` state: map from user id to the list of live connections
(`self._connections`), modelled as an association list. -/
structure SseState where
  connections : List (String × List SseConnection)
  deriving DecidableEq, Repr

/-- Lookup of a user's connection list (`self._connections.get(user_id, [])`
returns the first entry; the service keeps one entry per user). -/
def SseState.conns_of (st : SseState) (uid : String) : Option (List SseConnection) :=
  (st.connections.find? (fun p => p.1 == uid)).map (·.2)

/-- `SseService.emit_event`: deliver the event to every connection registered
for the user (each `connection.send(event)`); other users' connections are
untouched.  Per-connection delivery errors cannot occur in the model. -/
def emit_event (st : SseState) (uid : String) (e : SseEvent) : SseState :=
  { st with
    connections := st.connections.map (fun p =>
      if p.1 == uid then (p.1, p.2.map (fun c => c.send e)) else p) }

/-- Written from the spec's words, for comparison with the code (claim C5):
an event matches iff (a) `event_types` is empty or absent or contains the
event type, and (b) for every metadata-filter key with a non-empty
allowed-value set, the event's metadata value for that key is present and
belongs to that set. -/
def matches_spec (f : EventFilter) (e : SseEvent) : Bool :=
  (match f.event_types with
   | some ts => ts.isEmpty || ts.contains e.event_type
   | none => true)
  && f.metadata_filters.all (fun kv =>
      if kv.2.isEmpty then true
      else
        match metadata_get e.metadata kv.1 with
        | none => false
        | some v => kv.2.contains v)

/-! ## Task store data model (src/app/models/task and src/app/db/task_repo.py) -/

/-- `TaskStatus` enum. -/
inductive TaskStatus where
  | pending | decomposing | in_progress | completed | failed
  deriving DecidableEq, Repr

/-- `StepStatus` enum. -/
inductive StepStatus where
  | pending | in_progress | completed | failed | could_not_complete | abandoned
  deriving DecidableEq, Repr

/-- `StepType` enum. -/
inductive StepType where
  | normal | reevaluate
  deriving DecidableEq, Repr

/-- `ComplexityLevel` enum. -/
inductive ComplexityLevel where
  | low | medium | high
  deriving DecidableEq, Repr

/-- `ModelCapability` enum. -/
inductive ModelCapability where
  | reasoning | exa_search | native_web_search | ocr_pdf | text_pdf | native_pdf
  deriving DecidableEq, Repr

/-- The typed payload persisted in the `step_details` column (discriminator
plus JSON details; the JSON round-trip of `_serialize_step_details` and
`_row_to_task_step` is modelled structurally). -/
inductive StepDetails where
  | normal (complexity : ComplexityLevel) (required_capabilities : List ModelCapability)
  | reevaluate
  deriving DecidableEq, Repr

/-- A row of the `task_steps` table, with exactly the columns of the schema in
`task_repo.py`. -/
structure StepRow where
  id : String
  task_id : String
  step_number : Nat
  prompt : String
  status : StepStatus
  step_type : StepType
  details : StepDetails
  model_name : Option String
  response_content : Option String
  output : Option String
  started_at : Option Nat
  completed_at : Option Nat
  deriving DecidableEq, Repr

/-- A row of the `tasks` table. -/
structure TaskRow where
  id : String
  user_id : String
  prompt : String
  title : Option String
  status : TaskStatus
  created_at : Nat
  completed_at : Option Nat
  steps_generated : Bool
  output : Option String
  deriving DecidableEq, Repr

/-- The relational store, restricted to the tables the studied code touches,
plus a counter backing `uuid4()` id generation. -/
structure DB where
  tasks : List TaskRow
  steps : List StepRow
  costs : List (String × ℚ)
  next_id : Nat
  deriving DecidableEq, Repr

/-- Optional-argument bundle of `TaskRepo.update_task_step` (exactly the six
keyword parameters the function declares). -/
structure StepUpdateArgs where
  status : Option StepStatus := none
  model_name : Option String := none
  response_content : Option String := none
  output : Option String := none
  started_at : Option Nat := none
  completed_at : Option Nat := none
  deriving DecidableEq, Repr

/-- Application of the SQL `UPDATE task_steps SET ... WHERE id = ?` built by
`update_task_step`: each column named by a non-`None` argument is set, every
other column is left alone. -/
def apply_step_update (a : StepUpdateArgs) (row : StepRow) : StepRow :=
  { row with
    status := a.status.getD row.status
    model_name := match a.model_name with | some v => some v | none => row.model_name
    response_content := match a.response_content with | some v => some v | none => row.response_content
    output := match a.output with | some v => some v | none => row.output
    started_at := match a.started_at with | some v => some v | none => row.started_at
    completed_at := match a.completed_at with | some v => some v | none => row.completed_at }

/-- Whether `update_task_step` received no optional argument (its `updates`
list stays empty and no `UPDATE` statement is issued). -/
def StepUpdateArgs.isNoop (a : StepUpdateArgs) : Bool :=
  a.status.isNone && a.model_name.isNone && a.response_content.isNone
    && a.output.isNone && a.started_at.isNone && a.completed_at.isNone

/-- `TaskRepo.get_step_by_id`: the first row with the given id. -/
def get_step_by_id (db : DB) (step_id : String) : Option StepRow :=
  db.steps.find? (fun r => r.id == step_id)

/-- `TaskRepo.update_task_step`: if every optional argument is `None`, read
the row back without writing; otherwise update the named columns of the rows
whose `id` matches and return the row read back after the write. -/
def update_task_step (db : DB) (step_id : String) (a : StepUpdateArgs) :
    DB × Option StepRow :=
  if a.isNoop then
    (db, get_step_by_id db step_id)
  else
    let db' := { db with
      steps := db.steps.map (fun r => if r.id == step_id then apply_step_update a r else r) }
    (db', get_step_by_id db' step_id)

/-! ## Files and model catalogue (src/app/models/file/models.py, src/app/models/model/models.py) -/

/-- `FileMetadata`, restricted to the fields the studied code reads. -/
structure FileMetadata where
  id : String
  content_type : String
  size_bytes : Option ℚ
  url : Option String
  deriving DecidableEq, Repr

/-- Python `s.startswith(pre)` (structural restatement of
`String.startsWith`, kept kernel-reducible). -/
def starts_with (s pre : String) : Bool :=
  pre.data.isPrefixOf s.data

/-- Python `content_type.split("/")[1]` — the characters between the first
slash and the following slash or end (the callers only reach it when the
content type starts with a slash-containing literal, so the element exists). -/
def split_second (s : String) : String :=
  String.mk (((s.data.dropWhile (· ≠ '/')).drop 1).takeWhile (· ≠ '/'))

/-- `FileMetadata.is_pdf`. -/
def FileMetadata.is_pdf (f : FileMetadata) : Bool :=
  f.content_type == "application/pdf"

/-- `FileMetadata.is_text_file`. -/
def FileMetadata.is_text_file (f : FileMetadata) : Bool :=
  starts_with f.content_type "text/"

/-- `FileMetadata.get_image_type`.  The source checks
`if image_type in get_args(ImageType): raise ValueError(...)` — the membership
test is inverted, so the supported image types raise and every other subtype
is returned. -/
def FileMetadata.get_image_type (f : FileMetadata) : Except PyErr (Option String) :=
  if ¬ starts_with f.content_type "image/" then .ok none
  else
    let t := split_second f.content_type
    if ["jpeg", "png", "gif", "webp"].contains t then
      .error (.valueError ("Unsupported image type: " ++ t))
    else .ok (some t)

/-- `FileMetadata.get_audio_type` (same inverted membership test as
`get_image_type`). -/
def FileMetadata.get_audio_type (f : FileMetadata) : Except PyErr (Option String) :=
  if ¬ starts_with f.content_type "audio/" then .ok none
  else
    let t := split_second f.content_type
    if ["wav", "mp3"].contains t then
      .error (.valueError ("Unsupported audio type: " ++ t))
    else .ok (some t)

/-- `FileMetadata.get_video_type` (URL-backed videos short-circuit to the
literal string "url"; same inverted membership test). -/
def FileMetadata.get_video_type (f : FileMetadata) : Except PyErr (Option String) :=
  if ¬ starts_with f.content_type "video/" then .ok none
  else if f.url.isSome then .ok (some "url")
  else
    let t := split_second f.content_type
    if ["mp4", "mov", "mpeg", "webm"].contains t then
      .error (.valueError ("Unsupported video type: " ++ t))
    else .ok (some t)

/-- `FileMetadata.get_required_modalities`. -/
def FileMetadata.get_required_modalities (f : FileMetadata) : List String :=
  if starts_with f.content_type "image/" then ["image"]
  else if starts_with f.content_type "audio/" then ["audio"]
  else if starts_with f.content_type "video/" then ["video"]
  else []

/-- `ModelPricing` (the source field `audio` is embedded as `audio_price`). -/
structure ModelPricing where
  prompt_per_million : ℚ
  completion_per_million : ℚ
  request : Option ℚ := none
  image : Option ℚ := none
  audio_price : Option ℚ := none
  internal_reasoning : Option ℚ := none
  exa_search : Option ℚ := none
  native_search : Option ℚ := none
  pdf_mistral_ocr : ℚ := 0.0002
  deriving DecidableEq, Repr

/-- `ModelArchitecture`, restricted to `input_modalities`. -/
structure ModelArchitecture where
  input_modalities : List String
  deriving DecidableEq, Repr

/-- `ModelDescription`, restricted to the fields the studied code reads. -/
structure ModelDescription where
  id : String
  architecture : ModelArchitecture
  pricing : ModelPricing
  supported_parameters : List String
  deriving DecidableEq, Repr

/-- `ModelDescription.supports_reasoning`. -/
def ModelDescription.supports_reasoning (m : ModelDescription) : Bool :=
  m.supported_parameters.contains "reasoning"
    || m.supported_parameters.contains "include_reasoning"

/-- `ModelDescription.supports_native_web_search`. -/
def ModelDescription.supports_native_web_search (m : ModelDescription) : Bool :=
  starts_with m.id "google/gemini-2.5-" || starts_with m.id "perplexity/"
    || m.supported_parameters.contains "web_search_options"

/-! ## LLM configuration (src/app/services/llm/config and src/app/models/web_search_config.py) -/

/-- `ReasoningEffort` enum. -/
inductive ReasoningEffort where
  | high | medium | low | minimal | none
  deriving DecidableEq, Repr

/-- `ReasoningConfig`. -/
structure ReasoningConfig where
  effort : ReasoningEffort := ReasoningEffort.none
  deriving DecidableEq, Repr

/-- `ReasoningConfig.is_enabled`. -/
def ReasoningConfig.is_enabled (c : ReasoningConfig) : Bool :=
  c.effort != ReasoningEffort.none

/-- `SearchContextSize` enum. -/
inductive SearchContextSize where
  | low | medium | high
  deriving DecidableEq, Repr

/-- `WebSearchConfig` (`max_results` is an `int` in the source; it is embedded
in `ℚ` because it only feeds arithmetic). -/
structure WebSearchConfig where
  use_exa_search : Bool := false
  use_native_search : Bool := false
  max_results : ℚ := 5
  search_context_size : SearchContextSize := SearchContextSize.medium
  search_prompt : Option String := none
  deriving DecidableEq, Repr

/-- `WebSearchConfig.is_enabled`. -/
def WebSearchConfig.is_enabled (c : WebSearchConfig) : Bool :=
  c.use_exa_search || c.use_native_search

/-- `PdfEngine` enum. -/
inductive PdfEngine where
  | native | mistral_ocr | pdf_text
  deriving DecidableEq, Repr

/-- `PdfConfig`. -/
structure PdfConfig where
  engine : PdfEngine := PdfEngine.pdf_text
  deriving DecidableEq, Repr

/-- `LlmConfig`: the committed dataclass declares exactly `web_search` and
`reasoning` — in particular no `pdf` member, although
`config_helpers.build_llm_config_for_capabilities` passes one and the pricing
service reads one (see `build_llm_config_for_capabilities` and
`file_cost_one` for the resulting errors). -/
structure LlmConfig where
  web_search : WebSearchConfig
  reasoning : ReasoningConfig
  deriving DecidableEq, Repr

/-- `LlmConfig.default`. -/
def LlmConfig.default : LlmConfig :=
  ⟨{}, {}⟩

/-- `config_helpers.build_web_search_config_for_capabilities`. -/
def build_web_search_config_for_capabilities (caps : List ModelCapability) : WebSearchConfig :=
  let has_exa := caps.contains ModelCapability.exa_search
  let has_native := caps.contains ModelCapability.native_web_search
  if ¬ has_exa ∧ ¬ has_native then {}
  else
    { use_exa_search := has_exa
      use_native_search := has_native
      max_results := 5
      search_context_size := SearchContextSize.medium }

/-- `config_helpers.build_reasoning_config_for_capabilities`. -/
def build_reasoning_config_for_capabilities (caps : List ModelCapability) : ReasoningConfig :=
  if ¬ caps.contains ModelCapability.reasoning then {}
  else { effort := ReasoningEffort.medium }

/-- `config_helpers.build_pdf_config_for_capabilities`. -/
def build_pdf_config_for_capabilities (caps : List ModelCapability) : PdfConfig :=
  if caps.contains ModelCapability.ocr_pdf then { engine := PdfEngine.mistral_ocr }
  else if caps.contains ModelCapability.text_pdf then { engine := PdfEngine.pdf_text }
  else if caps.contains ModelCapability.native_pdf then { engine := PdfEngine.native }
  else {}

/-- `config_helpers.build_llm_config_for_capabilities`: it passes the keyword
argument `pdf` to the `LlmConfig` constructor, which the committed dataclass
does not declare, so every call raises `TypeError` (the three sub-configs are
built first, without observable effect). -/
def build_llm_config_for_capabilities (caps : List ModelCapability) :
    Except PyErr LlmConfig :=
  let _web := build_web_search_config_for_capabilities caps
  let _reasoning := build_reasoning_config_for_capabilities caps
  let _pdf := build_pdf_config_for_capabilities caps
  .error (.typeError "LlmConfig.__init__ got an unexpected keyword argument pdf")

/-- Modelled from the spec: the configuration §4.2 intends the executor and
evaluator to build for a step's capabilities.  The committed
`build_llm_config_for_capabilities` raises `TypeError` instead (see above);
the executor embedding uses this modelled value so its later, independent
defects stay observable — aborting at the committed raise would leave the
store in the same state its theorem asserts. -/
def build_llm_config_modelled (caps : List ModelCapability) : LlmConfig :=
  { web_search := build_web_search_config_for_capabilities caps
    reasoning := build_reasoning_config_for_capabilities caps }

/-! ## LLM messages (src/app/services/llm/llm_message.py) -/

/-- `LlmMessage` (token counts are `int | None` in the source, embedded in
`ℚ` for the cost arithmetic). -/
structure LlmMessage where
  role : String
  content : String
  additional_data : List (String × String) := []
  files : List FileMetadata := []
  prompt_tokens : Option ℚ := none
  completion_tokens : Option ℚ := none
  deriving DecidableEq, Repr

/-- Python `dict.get(key, default)` for the additional-data map. -/
def additional_data_get (m : List (String × String)) (k d : String) : String :=
  ((m.find? (fun p => p.1 == k)).map (·.2)).getD d

/-! ## Pricing estimator (src/app/services/prompt_pricing_service.py) -/

/-- `PromptPricingService._calculate_image_cost`. -/
def calculate_image_cost (pricing : ModelPricing) : ℚ :=
  pricing.image.getD 0

/-- `PromptPricingService._calculate_video_cost`. -/
def calculate_video_cost (pricing : ModelPricing) (omit_token_costs : Bool) : ℚ :=
  if omit_token_costs then 0 else 10 * pricing.image.getD 0

/-- `PromptPricingService._calculate_audio_cost`.  The source method takes
three positional arguments after `self`; its only call site passes four, so
this function is never reached (see `calculate_file_costs`). -/
def calculate_audio_cost (audio_type : String) (metadata : FileMetadata)
    (pricing : ModelPricing) : Except PyErr ℚ :=
  match pricing.audio_price with
  | Option.none => .ok 0
  | some price =>
    match metadata.size_bytes with
    | Option.none => .error (.valueError "Audio file metadata has no size")
    | some size =>
      let mb_per_minute : ℚ := if audio_type == "wav" then 10 else 6 / 5
      let estimated_length_minutes := size / (1024 * 1024) / mb_per_minute
      let estimated_audio_tokens := estimated_length_minutes * (75 * 60)
      .ok (estimated_audio_tokens / 1000000 * price)

/-- `PromptPricingService._calculate_pdf_cost` (the body returns `0.0`
unconditionally; unreachable from `file_cost_one`, whose `config.pdf`
argument expression raises first). -/
def calculate_pdf_cost (_metadata : FileMetadata) (_pricing : ModelPricing)
    (_pdf : PdfConfig) (_omit : Bool) : ℚ := 0

/-- `PromptPricingService._calculate_text_file_cost`. -/
def calculate_text_file_cost (metadata : FileMetadata) (pricing : ModelPricing)
    (omit_token_costs : Bool) : Except PyErr ℚ :=
  if omit_token_costs then .ok 0
  else
    match metadata.size_bytes with
    | Option.none => .error (.valueError "Text file metadata has no size")
    | some size =>
      let characters := size / (3 / 2)
      let tokens := characters / 4
      .ok (tokens / 1000000 * pricing.prompt_per_million)

/-- Cost contribution of one file inside the loop of
`_calculate_file_costs`: the `elif` chain over pdf / text / image / video /
audio.  The pdf branch reads `config.pdf`, a field the committed `LlmConfig`
does not declare, so it raises `AttributeError` (never reaching
`_calculate_pdf_cost`); the audio branch calls `_calculate_audio_cost` with
one positional argument more than the method accepts, which raises
`TypeError` in Python. -/
def file_cost_one (pricing : ModelPricing) (_config : LlmConfig)
    (omit_token_costs : Bool) (f : FileMetadata) : Except PyErr ℚ :=
  if f.is_pdf then .error (.attributeError "LlmConfig object has no attribute pdf")
  else if f.is_text_file then calculate_text_file_cost f pricing omit_token_costs
  else do
    match ← f.get_image_type with
    | some _ => pure (calculate_image_cost pricing)
    | Option.none =>
      match ← f.get_video_type with
      | some _ => pure (calculate_video_cost pricing omit_token_costs)
      | Option.none =>
        match ← f.get_audio_type with
        | some _ =>
          throw (.typeError
            "calculate_audio_cost takes 4 positional arguments but 5 were given")
        | Option.none =>
          throw (.valueError ("Unsupported file type: " ++ f.content_type))

/-- `PromptPricingService._calculate_file_costs`.  With an empty list it
returns `0.0`; otherwise the loop accumulates `cost` but the function body
ends without a `return` statement, so Python returns `None` — embedded as
`.ok Option.none` (exceptions raised inside the loop still propagate). -/
def calculate_file_costs (files : List FileMetadata) (pricing : ModelPricing)
    (config : LlmConfig) (omit_token_costs : Bool) : Except PyErr (Option ℚ) :=
  if files.isEmpty then .ok (some 0)
  else do
    let _ ← files.foldlM
      (fun acc f => do pure (acc + (← file_cost_one pricing config omit_token_costs f))) (0 : ℚ)
    pure Option.none

/-- `PromptPricingService._calculate_reasoning_cost`. -/
def calculate_reasoning_cost (completion_tokens : ℚ) (config : LlmConfig)
    (pricing : ModelPricing) : ℚ :=
  if ¬ config.reasoning.is_enabled ∨ pricing.internal_reasoning.isNone then 0
  else
    let price := pricing.internal_reasoning.getD 0
    let reasoning_multiplier : ℚ :=
      match config.reasoning.effort with
      | ReasoningEffort.none => 0
      | ReasoningEffort.minimal => 1 / 2
      | ReasoningEffort.low => 1
      | ReasoningEffort.medium => 2
      | ReasoningEffort.high => 4
    completion_tokens * reasoning_multiplier / 1000000 * price

/-- `PromptPricingService._calculate_web_search_cost`. -/
def calculate_web_search_cost (config : LlmConfig) (pricing : ModelPricing) : ℚ :=
  let exa_cost : ℚ :=
    if config.web_search.use_exa_search ∧ pricing.exa_search.isSome then
      config.web_search.max_results / 1000 * pricing.exa_search.getD 0
    else 0
  let native_cost : ℚ :=
    if config.web_search.use_native_search ∧ pricing.native_search.isSome then
      let multiplier : ℚ :=
        match config.web_search.search_context_size with
        | SearchContextSize.low => 1 / 2
        | SearchContextSize.medium => 1
        | SearchContextSize.high => 2
      config.web_search.max_results * multiplier / 1000 * pricing.native_search.getD 0
    else 0
  exa_cost + native_cost

/-- `PromptPricingService._calculate_cost_internal`.  The `total_cost +=
self._calculate_file_costs(...)` line adds the helper's `None` result to a
float whenever the file list is non-empty, which raises `TypeError`. -/
def calculate_cost_internal (prompt_tokens completion_tokens : ℚ)
    (files : List FileMetadata) (config : LlmConfig) (pricing : ModelPricing)
    (omit_token_costs : Bool) : Except PyErr ℚ := do
  let prompt_cost := prompt_tokens / 1000000 * pricing.prompt_per_million
  let completion_cost := completion_tokens / 1000000 * pricing.completion_per_million
  let base := prompt_cost + completion_cost + pricing.request.getD 0
  match ← calculate_file_costs files pricing config omit_token_costs with
  | Option.none =>
    throw (.typeError "unsupported operand types for +=: float and NoneType")
  | some file_costs =>
    pure (base + file_costs
      + calculate_reasoning_cost completion_tokens config pricing
      + calculate_web_search_cost config pricing)

/-- `PromptPricingService.calculate_cost` (actual cost of a completed call;
`get_model_by_id` of the model cache is passed in as a lookup function). -/
def calculate_cost (get_model_by_id : String → Option ModelDescription)
    (model_id : String) (llm_message : LlmMessage) (files : List FileMetadata)
    (config : LlmConfig) : Except PyErr ℚ := do
  if llm_message.role != "assistant" then
    throw (.valueError "Cost calculation should only be called for an assistant message")
  match llm_message.prompt_tokens, llm_message.completion_tokens with
  | some pt, some ct =>
    match get_model_by_id model_id with
    | Option.none => throw (.valueError ("Model " ++ model_id ++ " not found"))
    | some desc => calculate_cost_internal pt ct files config desc.pricing true
  | _, _ => throw (.valueError "Token counts are not set for assistant message")

/-- `PromptPricingService.estimate_response_cost`. -/
def estimate_response_cost (get_model_by_id : String → Option ModelDescription)
    (model_id : String) (prompt_tokens predicted_completion_tokens : ℚ)
    (files : List FileMetadata) (config : LlmConfig) : Except PyErr ℚ :=
  match get_model_by_id model_id with
  | Option.none => .error (.valueError ("Model " ++ model_id ++ " not found"))
  | some desc =>
    calculate_cost_internal prompt_tokens predicted_completion_tokens files config
      desc.pricing false

/-! ## Model selector (src/app/services/task_model_selection_service.py and
src/app/services/model_selection/model_evaluation.py) -/

/-- `ModelInference` (scoring-service result for one model). -/
structure ModelInference where
  model_id : String
  score : ℚ
  predicted_length : ℚ
  deriving DecidableEq, Repr

/-- `ModelEvaluation`. -/
structure ModelEvaluation where
  model_id : String
  score : ℚ
  predicted_length : ℚ
  estimated_cost : ℚ
  deriving DecidableEq, Repr

/-- `ModelEvaluation.from_inference`. -/
def ModelEvaluation.from_inference (inf : ModelInference) (estimated_cost : ℚ) :
    ModelEvaluation :=
  ⟨inf.model_id, inf.score, inf.predicted_length, estimated_cost⟩

/-- The `_NormalizedEntry` dataclass, with exactly the three fields it
declares in the source: `model_id`, `score`, `cost`. -/
structure NormalizedEntry where
  model_id : String
  score : ℚ
  cost : ℚ
  deriving DecidableEq, Repr

/-- `NormalTaskStepDefinition`: the committed dataclass declares exactly
`prompt`, `step_type`, `complexity` and `required_capabilities` — in
particular no `required_file_ids`, although both
`_filter_by_input_modalities` and `_evaluate_models` read that attribute
(see `filter_by_input_modalities` and `evaluate_models` for the resulting
errors). -/
structure NormalTaskStepDefinition where
  prompt : String
  step_type : StepType := StepType.normal
  complexity : ComplexityLevel
  required_capabilities : List ModelCapability
  deriving DecidableEq, Repr

/-- `TaskModelSelectionService._normalize_scores_and_costs` (z-scores over
the candidate set plus the upper medians of the raw costs and scores;
`math.sqrt` is abstracted as the `sqrt` parameter). -/
def normalize_scores_and_costs (sqrt : ℚ → ℚ) (entries : List ModelEvaluation) :
    List NormalizedEntry × ℚ × ℚ :=
  let n : ℚ := entries.length
  let mean_score := (entries.map (·.score)).sum / n
  let std_score := sqrt ((entries.map (fun e => (e.score - mean_score) ^ 2)).sum / n)
  let mean_cost := (entries.map (·.estimated_cost)).sum / n
  let std_cost := sqrt ((entries.map (fun e => (e.estimated_cost - mean_cost) ^ 2)).sum / n)
  let by_cost := entries.mergeSort (fun a b => a.estimated_cost ≤ b.estimated_cost)
  let by_score := entries.mergeSort (fun a b => a.score ≤ b.score)
  let median_cost := ((by_cost.get? (entries.length / 2)).map (·.estimated_cost)).getD 0
  let median_score := ((by_score.get? (entries.length / 2)).map (·.score)).getD 0
  let normalized := entries.map (fun e =>
    NormalizedEntry.mk e.model_id
      (if std_score > 0 then (e.score - mean_score) / std_score else 0)
      (if std_cost > 0 then (e.estimated_cost - mean_cost) / std_cost else 0))
  (normalized, median_cost, median_score)

/-- `TaskModelSelectionService._select_best_model`.  An empty list raises
`TaskModelSelectionError`; a single evaluation is returned as is; with two or
more, after normalisation the filter loop evaluates
`normalized.estimated_cost > 3 * median_cost + 1e-4` on its first entry —
`_NormalizedEntry` declares no `estimated_cost` field, so Python raises
`AttributeError` there on every such input. -/
def select_best_model (sqrt : ℚ → ℚ) (evaluations : List ModelEvaluation) :
    Except PyErr ModelEvaluation :=
  match evaluations with
  | [] => .error (.taskModelSelectionError "No models to select from")
  | [e] => .ok e
  | _ :: _ :: _ =>
    let r := normalize_scores_and_costs sqrt evaluations
    match r.1 with
    | [] => .error (.valueError "list index out of range")
    | _ :: _ =>
      .error (.attributeError "_NormalizedEntry object has no attribute estimated_cost")

/-- `TaskModelSelectionService._filter_by_input_modalities`: its first loop
header reads `step.required_file_ids`, an attribute the committed
`NormalTaskStepDefinition` does not declare, so every call raises
`AttributeError` before any filtering happens (the file lookups and the
modality filter below it are dead code). -/
def filter_by_input_modalities (_file_lookup : String → Option FileMetadata)
    (_step : NormalTaskStepDefinition) (_models : List ModelDescription) :
    Except PyErr (List ModelDescription) :=
  .error (.attributeError
    "NormalTaskStepDefinition object has no attribute required_file_ids")

/-- `TaskModelSelectionService._filter_by_capability`. -/
def filter_by_capability (models : List ModelDescription) (cap : ModelCapability) :
    List ModelDescription :=
  match cap with
  | ModelCapability.reasoning => models.filter (·.supports_reasoning)
  | ModelCapability.exa_search => models
  | ModelCapability.native_web_search => models.filter (·.supports_native_web_search)
  | ModelCapability.ocr_pdf => models
  | ModelCapability.text_pdf => models
  | ModelCapability.native_pdf =>
      models.filter (fun m => m.architecture.input_modalities.contains "file")

/-- External collaborators of the selector, bundled: the model cache snapshot,
the file repository, the scoring service and the float square root. -/
structure SelectorEnv where
  all_models : List ModelDescription
  get_model_by_id : String → Option ModelDescription
  file_lookup : String → Option FileMetadata
  scoring : List String → String → Except PyErr (List ModelInference)
  sqrt : ℚ → ℚ

/-- `TaskModelSelectionService._evaluate_models` (any exception inside the
`try` block is converted to `TaskModelSelectionError`): after the scoring
call, the committed body raises `TypeError` constructing the `LlmConfig`
(and the file-metadata comprehension after it would raise `AttributeError`
reading the undeclared `step.required_file_ids`), so every call fails. -/
def evaluate_models (env : SelectorEnv) (model_ids : List String)
    (step : NormalTaskStepDefinition) : Except PyErr (List ModelEvaluation) :=
  let attempt : Except PyErr (List ModelEvaluation) := do
    let inferences ← env.scoring model_ids step.prompt
    let config ← build_llm_config_for_capabilities step.required_capabilities
    let file_metadata_list ← (Except.error (.attributeError
        "NormalTaskStepDefinition object has no attribute required_file_ids")
      : Except PyErr (List FileMetadata))
    let estimated_prompt_tokens : ℚ := (step.prompt.length / 4 : Nat)
    inferences.mapM (fun inference => do
      let estimated_cost ← estimate_response_cost env.get_model_by_id inference.model_id
        estimated_prompt_tokens inference.predicted_length file_metadata_list config
      pure (ModelEvaluation.from_inference inference estimated_cost))
  match attempt with
  | .error _ => .error (.taskModelSelectionError "Failed to evaluate models")
  | .ok evals => .ok evals

/-- `TaskModelSelectionService.select_model_for_step`. -/
def select_model_for_step (env : SelectorEnv) (step : NormalTaskStepDefinition) :
    Except PyErr ModelEvaluation := do
  let models := env.all_models
  let models ← filter_by_input_modalities env.file_lookup step models
  let models := step.required_capabilities.foldl filter_by_capability models
  if models.length = 0 then
    throw (.taskModelSelectionError "No models found that meet requirements")
  let model_ids := models.map (·.id)
  let evaluations ← evaluate_models env model_ids step
  select_best_model env.sqrt evaluations

/-- Stand-in for `math.sqrt` when a concrete instance of the selector is
evaluated; `select_best_model` errors before any square root influences the
outcome, so any function works here. -/
def sqrt_model : ℚ → ℚ := fun q => q

/-! ## Additional-data parsers (src/app/services/llm/llm_service.py)

Texts are embedded as `List Char` so every string operation is structurally
recursive and kernel-reducible. -/

/-- The literal `<additional_data key=` (the fixed part of the opening-tag
pattern `<additional_data key=([^>]+)>`). -/
def open_lit : List Char := "<additional_data key=".data

/-- The literal `<additional_data` passed to `_find_safe_content_end` while
outside a tag. -/
def open_tag_lit : List Char := "<additional_data".data

/-- The literal `</additional_data>` (the closing tag). -/
def close_lit : List Char := "</additional_data>".data

/-- The literal `</additional_data` passed to `_find_safe_content_end` while
inside a tag. -/
def close_tag_lit : List Char := "</additional_data".data

/-- The whitespace set of Python `str.strip()`. -/
def is_py_space (c : Char) : Bool :=
  c == ' ' || c == '\t' || c == '\n' || c == '\r' || c == '\x0b' || c == '\x0c'

/-- Python `str.strip()`. -/
def py_strip (s : List Char) : List Char :=
  ((s.dropWhile is_py_space).reverse.dropWhile is_py_space).reverse

/-- Attempt of the opening-tag pattern `<additional_data key=([^>]+)>` at the
start of `s` (regex semantics: the greedy `[^>]+` runs to the first `>`, must
be non-empty, and the `>` must follow); returns the captured key and the text
after the `>`. -/
def open_match_at (s : List Char) : Option (List Char × List Char) :=
  if open_lit.isPrefixOf s then
    let t := s.drop open_lit.length
    let k := t.takeWhile (fun c => !(c == '>'))
    if k.isEmpty then none
    else
      match t.drop k.length with
      | '>' :: r => some (k, r)
      | _ => none
  else none

/-- `re.search` of the opening-tag pattern: the leftmost position where
`open_match_at` succeeds, with the text before the match. -/
def find_opening_tag : List Char → Option (List Char × List Char × List Char)
  | [] =>
    (match open_match_at [] with
     | some (k, r) => some ([], k, r)
     | none => none)
  | c :: t =>
    (match open_match_at (c :: t) with
     | some (k, r) => some ([], k, r)
     | none => (find_opening_tag t).map (fun x => (c :: x.1, x.2.1, x.2.2)))

/-- Python `buffer.find(pat)` returning the split at the leftmost occurrence
of `pat` (text before, text after). -/
def find_first_occ (pat : List Char) (s : List Char) : Option (List Char × List Char) :=
  if pat.isPrefixOf s then some ([], s.drop pat.length)
  else
    match s with
    | [] => none
    | c :: t => (find_first_occ pat t).map (fun x => (c :: x.1, x.2))

/-- `OpenRouterLlmService._find_safe_content_end`: the first `i` in
`range(1, min(len(pat) + 1, len(buffer) + 1))` with `buffer.endswith(pat[:i])`
gives `len(buffer) - i`; otherwise `len(buffer)`. -/
def find_safe_content_end (buffer pat : List Char) : Nat :=
  match (List.range' 1 (min pat.length buffer.length)).find?
      (fun i => (pat.take i).isSuffixOf buffer) with
  | some i => buffer.length - i
  | none => buffer.length

/-- `StreamedChunk`. -/
structure StreamedChunk where
  content : List Char
  additional_data_key : Option (List Char) := none
  deriving DecidableEq, Repr

/-- The mutable parser state of `get_completion_streamed` between deltas:
`in_tag`, `current_tag_name`, `tag_content` (the buffer is threaded
separately). -/
structure PState where
  in_tag : Bool
  current_tag_name : Option (List Char)
  tag_content : List Char
  deriving DecidableEq, Repr

/-- The initial parser state. -/
def pstate0 : PState := ⟨false, none, []⟩

/-- `OpenRouterLlmService._process_opening_tag_state`: returns the remaining
buffer, the new state and the chunks to yield. -/
def process_opening_tag_state (buffer : List Char) (st : PState) :
    List Char × PState × List StreamedChunk :=
  match find_opening_tag buffer with
  | some (before, k, rest) =>
    (rest, ⟨true, some (py_strip k), []⟩,
      if before.isEmpty then [] else [⟨before, none⟩])
  | none =>
    let safe_end := find_safe_content_end buffer open_tag_lit
    if 0 < safe_end then
      (buffer.drop safe_end, ⟨false, st.current_tag_name, st.tag_content⟩,
        [⟨buffer.take safe_end, none⟩])
    else
      ([], ⟨false, st.current_tag_name, st.tag_content⟩,
        if buffer.isEmpty then [] else [⟨buffer, none⟩])

/-- `OpenRouterLlmService._process_closing_tag_state`. -/
def process_closing_tag_state (buffer : List Char) (st : PState) :
    List Char × PState × List StreamedChunk :=
  match find_first_occ close_lit buffer with
  | some (before, rest) =>
    (rest, ⟨false, none, []⟩, [⟨st.tag_content ++ before, st.current_tag_name⟩])
  | none =>
    let safe_end := find_safe_content_end buffer close_tag_lit
    if 0 < safe_end then
      (buffer.drop safe_end, ⟨true, st.current_tag_name, st.tag_content ++ buffer.take safe_end⟩, [])
    else
      ([], ⟨true, st.current_tag_name, st.tag_content ++ buffer⟩, [])

/-- One iteration of the `while buffer:` body of `get_completion_streamed`:
dispatch on `in_tag`. -/
def step_state (buffer : List Char) (st : PState) :
    List Char × PState × List StreamedChunk :=
  if st.in_tag then process_closing_tag_state buffer st
  else process_opening_tag_state buffer st

/-- The `while buffer:` loop of `get_completion_streamed` (fuel-indexed; each
iteration strictly shrinks the buffer, so `buffer.length + 1` fuel always
suffices — see `run_loop_fuel_irrelevant`).  Returns the final buffer (always
empty when fuel suffices), the final state, and the yielded chunks in
order. -/
def run_loop : Nat → List Char → PState → List Char × PState × List StreamedChunk
  | 0, buffer, st => (buffer, st, [])
  | Nat.succ n, buffer, st =>
    if buffer.isEmpty then (buffer, st, [])
    else
      let r := step_state buffer st
      if r.1.isEmpty then r
      else
        let r2 := run_loop n r.1 r.2.1
        (r2.1, r2.2.1, r.2.2 ++ r2.2.2)

/-- `get_completion_streamed` restricted to the content channel: feed each
arriving delta into the buffer, drain the buffer with the two state handlers,
and after the stream ends flush whatever is left in the buffer (content
deltas are the input list; reasoning deltas are out of scope of the studied
claims). -/
def stream_chunks (deltas : List (List Char)) : List StreamedChunk :=
  let final := deltas.foldl
    (fun (acc : List Char × PState × List StreamedChunk) delta =>
      let buffer := acc.1 ++ delta
      let r := run_loop (buffer.length + 1) buffer acc.2.1
      (r.1, r.2.1, acc.2.2 ++ r.2.2))
    ([], pstate0, [])
  if final.1.isEmpty then final.2.2
  else if final.2.1.in_tag then
    final.2.2 ++ [⟨final.2.1.tag_content ++ final.1, final.2.1.current_tag_name⟩]
  else final.2.2 ++ [⟨final.1, none⟩]

/-- Attempt of the full non-streaming pattern
`<additional_data key=([^>]+)>(.*?)</additional_data>` (DOTALL) at the start
of `s`: the opening part as in `open_match_at`, then the lazy `(.*?)` runs to
the leftmost `</additional_data>`. -/
def try_match_at (s : List Char) : Option (List Char × List Char × List Char) :=
  match open_match_at s with
  | none => none
  | some (k, r) =>
    match find_first_occ close_lit r with
    | none => none
    | some (v, rest) => some (k, v, rest)

/-- Leftmost match of the full pattern in `s` (the scan `re` performs),
returning the unmatched text before the match, the key, the value, and the
rest after the match. -/
def find_match : List Char → Option (List Char × List Char × List Char × List Char)
  | [] =>
    (match try_match_at [] with
     | some (k, v, rest) => some ([], k, v, rest)
     | none => none)
  | c :: t =>
    (match try_match_at (c :: t) with
     | some (k, v, rest) => some ([], k, v, rest)
     | none => (find_match t).map (fun x => (c :: x.1, x.2)))

/-- The scan loop shared by `re.findall` and `re.sub` on the pattern:
repeatedly take the leftmost match; return the `(key, value)` captures in
order and the concatenation of the unmatched spans (fuel-indexed; each match
consumes at least the opening literal, so `s.length + 1` fuel suffices). -/
def find_all_matches : Nat → List Char → List (List Char × List Char) × List Char
  | 0, s => ([], s)
  | Nat.succ n, s =>
    match find_match s with
    | none => ([], s)
    | some (before, k, v, rest) =>
      let r := find_all_matches n rest
      ((k, v) :: r.1, before ++ r.2)

/-- `OpenRouterLlmService._parse_additional_data`: `findall` collects the
`(key, value)` pairs (the dict applies `key.strip()`/`value.strip()` with
last write winning — see `dict_get`), and `re.sub` removes the matched spans,
the remainder being stripped. -/
def parse_additional_data (content : List Char) :
    List Char × List (List Char × List Char) :=
  let r := find_all_matches (content.length + 1) content
  (py_strip r.2, r.1.map (fun kv => (py_strip kv.1, py_strip kv.2)))

/-- Lookup in the `additional_data` dict built by successive
`additional_data[key] = value` writes: the last binding of a key wins. -/
def dict_get (pairs : List (List Char × List Char)) (k : List Char) :
    Option (List Char) :=
  (pairs.reverse.find? (fun p => p.1 == k)).map (·.2)

/-- Concatenation of the contents of the chunks with `additional_data_key =
None` (the plain-text channel), in order. -/
def null_concat (chunks : List StreamedChunk) : List Char :=
  (chunks.filterMap (fun c =>
    if c.additional_data_key.isNone then some c.content else none)).flatten

/-- Concatenation of the contents of the chunks with `additional_data_key =
k`, in order. -/
def key_concat (k : List Char) (chunks : List StreamedChunk) : List Char :=
  (chunks.filterMap (fun c =>
    if c.additional_data_key == some k then some c.content else none)).flatten

/-- A segment of a well-formed tagged text: either plain text or one complete
`<additional_data key=K>V</additional_data>` tag. -/
inductive Seg where
  | plain (p : List Char)
  | tag (key value : List Char)
  deriving DecidableEq, Repr

/-- Rendering a segment list to the character stream. -/
def render : List Seg → List Char
  | [] => []
  | Seg.plain p :: rest => p ++ render rest
  | Seg.tag k v :: rest =>
      open_lit ++ k ++ '>' :: (v ++ close_lit ++ render rest)

/-- Well-formedness of one segment: plain text holds no `<`; a tag has a
non-empty key without `>` that is already stripped, and a value without `<`
that is already stripped. -/
def seg_ok : Seg → Bool
  | Seg.plain p => ¬ p.contains '<'
  | Seg.tag k v =>
      (¬ k.isEmpty) && (¬ k.contains '>') && (py_strip k == k)
        && (¬ v.contains '<') && (py_strip v == v)

/-- Normal form of a delta's segment list: no two adjacent plain segments
(any delta can be written this way by merging neighbours). -/
def delta_ok : List Seg → Bool
  | [] => true
  | Seg.tag _ _ :: rest => delta_ok rest
  | Seg.plain _ :: [] => true
  | Seg.plain _ :: Seg.tag k v :: rest => delta_ok (Seg.tag k v :: rest)
  | Seg.plain _ :: Seg.plain _ :: _ => false

/-- The `(key, value)` pairs of the tags of a segment list, in order. -/
def seg_tags : List Seg → List (List Char × List Char)
  | [] => []
  | Seg.plain _ :: rest => seg_tags rest
  | Seg.tag k v :: rest => (k, v) :: seg_tags rest

/-- The concatenation of the plain segments of a segment list. -/
def plains_concat : List Seg → List Char
  | [] => []
  | Seg.plain p :: rest => p ++ plains_concat rest
  | Seg.tag _ _ :: rest => plains_concat rest

/-- The chunk sequence the stream parser emits for one delta in normal form:
each non-empty plain run as one plain chunk, each tag as one keyed chunk. -/
def chunks_of : List Seg → List StreamedChunk
  | [] => []
  | Seg.plain p :: rest =>
      (if p.isEmpty then [] else [⟨p, none⟩]) ++ chunks_of rest
  | Seg.tag k v :: rest => ⟨v, some k⟩ :: chunks_of rest

/-! ## Work queue, decomposition and step execution
(src/app/models/task/work_queue.py, src/app/db/task_repo.py,
src/app/services/work_queue_service.py, task_decomposition_service.py,
task_step_execution_service.py) -/

/-- Modelled from the spec: the work-item kind.  The `WorkItemType` enum in
src declares only `DECOMPOSE_TASK` and `EXECUTE_STEP`; §3 of the spec gives
`kind ∈ {DECOMPOSE, EXECUTE, REEVALUATE}` and the executor's calls to the
(also missing) factory `make_task_reevaluation_item` need the third member,
supplied here following the spec. -/
inductive WorkItemKind where
  | decompose_task | execute_step | reevaluate_task
  deriving DecidableEq, Repr

/-- `WorkQueueItem`. -/
structure WorkQueueItem where
  task_id : String
  user_id : String
  item_type : WorkItemKind
  step_id : Option String
  api_key : String
  deriving DecidableEq, Repr

/-- `WorkQueueItem.make_task_decomposition_item`. -/
def make_task_decomposition_item (task : TaskRow) (api_key : String) : WorkQueueItem :=
  ⟨task.id, task.user_id, WorkItemKind.decompose_task, none, api_key⟩

/-- `WorkQueueItem.make_task_step_execution_item`. -/
def make_task_step_execution_item (task : TaskRow) (step_id api_key : String) : WorkQueueItem :=
  ⟨task.id, task.user_id, WorkItemKind.execute_step, some step_id, api_key⟩

/-- Modelled from the spec: `WorkQueueItem.make_task_reevaluation_item` is
called by `TaskStepExecutionService` (twice) but not defined on
`WorkQueueItem`; following the spec it carries the REEVALUATE kind and the
reevaluate step's id. -/
def make_task_reevaluation_item (task : TaskRow) (step_id api_key : String) : WorkQueueItem :=
  ⟨task.id, task.user_id, WorkItemKind.reevaluate_task, some step_id, api_key⟩

/-- A step definition as produced by decomposition or reevaluation parsing
(`NormalTaskStepDefinition` / `ReevaluateTaskStepDefinition`). -/
inductive TaskStepDefinition where
  | normal_definition (prompt : String) (complexity : ComplexityLevel)
      (required_capabilities : List ModelCapability)
  | reevaluate_definition (prompt : String)
  deriving DecidableEq, Repr

/-- The prompt of a step definition. -/
def TaskStepDefinition.def_prompt : TaskStepDefinition → String
  | .normal_definition p _ _ => p
  | .reevaluate_definition p => p

/-- The persisted discriminator of a step definition. -/
def TaskStepDefinition.def_type : TaskStepDefinition → StepType
  | .normal_definition _ _ _ => StepType.normal
  | .reevaluate_definition _ => StepType.reevaluate

/-- `_serialize_step_details` (structurally). -/
def TaskStepDefinition.def_details : TaskStepDefinition → StepDetails
  | .normal_definition _ c caps => StepDetails.normal c caps
  | .reevaluate_definition _ => StepDetails.reevaluate

/-- The row inserted for a step definition (`INSERT INTO task_steps` with
status `pending` and the remaining columns NULL). -/
def step_row_of_def (d : TaskStepDefinition) (id task_id : String) (num : Nat) : StepRow :=
  ⟨id, task_id, num, d.def_prompt, StepStatus.pending, d.def_type, d.def_details,
    none, none, none, none, none⟩

/-- `TaskRepo.get_task_by_id` (`WHERE id = ? AND user_id = ?`). -/
def get_task_by_id (db : DB) (task_id user_id : String) : Option TaskRow :=
  db.tasks.find? (fun t => t.id == task_id && t.user_id == user_id)

/-- `TaskRepo.update_task_final_status`: sets `status`, `completed_at` and
`output` (the latter to NULL when the caller passes no output) on the rows
with the given id, and reads the task back by id. -/
def update_task_final_status (db : DB) (task_id : String) (status : TaskStatus)
    (completed_at : Nat) (output : Option String) : DB × Option TaskRow :=
  let db' := { db with
    tasks := db.tasks.map (fun t =>
      if t.id == task_id then
        { t with status := status, completed_at := some completed_at, output := output }
      else t) }
  (db', db'.tasks.find? (fun t => t.id == task_id))

/-- Insertion of one element into a sorted list (auxiliary of
`py_sort_by`). -/
def py_sort_insert {α : Type} (le : α → α → Bool) (a : α) : List α → List α
  | [] => [a]
  | b :: rest => if le a b then a :: b :: rest else b :: py_sort_insert le a rest

/-- A stable structural sort, embedding the SQL `ORDER BY`. -/
def py_sort_by {α : Type} (le : α → α → Bool) : List α → List α
  | [] => []
  | a :: rest => py_sort_insert le a (py_sort_by le rest)

/-- `TaskRepo.get_steps_by_task_id`: `None` when the task lookup fails,
otherwise the task's step rows (excluding `abandoned` ones when requested)
ordered by `step_number`. -/
def get_steps_by_task_id (db : DB) (task_id user_id : String)
    (exclude_abandoned : Bool) : Option (List StepRow) :=
  match get_task_by_id db task_id user_id with
  | Option.none => none
  | some _ =>
    let rows := db.steps.filter (fun r =>
      r.task_id == task_id
        && (if exclude_abandoned then !(r.status == StepStatus.abandoned) else true))
    some (py_sort_by (fun a b => decide (a.step_number ≤ b.step_number)) rows)

/-- `TaskRepo.mark_steps_as_abandoned_after`
(`UPDATE task_steps SET status = abandoned WHERE task_id = ? AND step_number > ?`). -/
def mark_steps_as_abandoned_after (db : DB) (task_id : String) (after : Nat) : DB :=
  { db with
    steps := db.steps.map (fun r =>
      if r.task_id == task_id && decide (after < r.step_number) then
        { r with status := StepStatus.abandoned }
      else r) }

/-- `TaskCostRepo.add_cost_increment` (append-only ledger). -/
def add_cost_increment (db : DB) (task_id : String) (amount : ℚ) : DB :=
  { db with costs := db.costs ++ [(task_id, amount)] }

/-! The embedded effectful computations: a Python method that mutates the
store and may raise becomes a function `... → DB → DB × Except PyErr α`
(explicit state passing); mutations performed before an exception escapes
are kept, as in Python, and a failed `utils.not_none` check becomes the
`ValueError` value it raises. -/

/-- External collaborators of the queue-driven services (`uuid4`,
`datetime.now`, the model-selection stack, and the LLM calls of the executor,
decomposer and reevaluator — the last two bundled with their strict response
parsing, whose per-field errors are not claim-relevant). -/
structure SysEnv where
  uuid : Nat → String
  now : Nat
  selector : SelectorEnv
  llm_complete : String → String → String → List FileMetadata → LlmConfig →
    Except PyErr LlmMessage
  decompose_oracle : String → String → Except PyErr (String × List TaskStepDefinition)
  reevaluate_oracle : TaskRow → StepRow → List StepRow → String →
    Except PyErr (List TaskStepDefinition)
  file_lookup_user : String → String → Option FileMetadata

/-- The `for i, step_def in enumerate(new_steps)` insertion loop shared by
`update_task_after_steps_generation` (`base = 0`) and
`insert_new_steps_after_reevaluation` (`base = after_step_number + 1`): draw
a fresh id (`uuid4()`), insert the row at `step_number = base + i`, read it
back by that id, and collect the rows found. -/
def insert_steps_loop (env : SysEnv) (task_id : String) (base : Nat) :
    Nat → List TaskStepDefinition → DB → DB × List StepRow
  | _, [], db => (db, [])
  | i, d :: rest, db =>
    let id := env.uuid db.next_id
    let db1 : DB := { db with
      next_id := db.next_id + 1
      steps := db.steps ++ [step_row_of_def d id task_id (base + i)] }
    let first := match get_step_by_id db1 id with
      | some s => [s]
      | Option.none => []
    let r := insert_steps_loop env task_id base (i + 1) rest db1
    (r.1, first ++ r.2)

/-- `TaskRepo.insert_new_steps_after_reevaluation`. -/
def insert_new_steps_after_reevaluation (env : SysEnv) (task_id : String)
    (after_step_number : Nat) (new_steps : List TaskStepDefinition) (db : DB) :
    DB × List StepRow :=
  insert_steps_loop env task_id (after_step_number + 1) 0 new_steps db

/-- `TaskRepo.update_task_after_steps_generation`: set title, status
`in_progress` and `steps_generated` on the task row, insert one row per step
definition numbered from 0, and read the task back. -/
def update_task_after_steps_generation (env : SysEnv) (task_id title : String)
    (steps : List TaskStepDefinition) (db : DB) : DB × Option TaskRow :=
  let db1 : DB := { db with
    tasks := db.tasks.map (fun t =>
      if t.id == task_id then
        { t with
          title := some title
          status := TaskStatus.in_progress
          steps_generated := true }
      else t) }
  let r := insert_steps_loop env task_id 0 0 steps db1
  (r.1, r.1.tasks.find? (fun t => t.id == task_id))

/-- Modelled from the spec: `TaskRepo.create_reevaluation_step` is called by
`TaskStepExecutionService._handle_step_failure` with the failed step's
`step_number` but is absent from the repository class; per §4.8 (step 8) and
§7 of the spec the synthesized unplanned reevaluate step is created at
`step_number = failed.step_number + 1` with status `pending` (the
`is_planned` flag has no column in the committed schema and is not stored). -/
def create_reevaluation_step (env : SysEnv) (task_id : String) (step_number : Nat)
    (prompt : String) (_is_planned : Bool) (db : DB) : DB × StepRow :=
  let id := env.uuid db.next_id
  let row : StepRow :=
    ⟨id, task_id, step_number + 1, prompt, StepStatus.pending, StepType.reevaluate,
      StepDetails.reevaluate, none, none, none, none, none⟩
  ({ db with next_id := db.next_id + 1, steps := db.steps ++ [row] }, row)

/-- Modelled from the spec: `NormalTaskStep.to_step_definition` is called by
`execute_step` before model selection but is absent from the dataclass; it
rebuilds the step definition from the row's fields (the reevaluate arm is
unreachable: the caller has already checked the step is normal). -/
def to_step_definition (row : StepRow) : NormalTaskStepDefinition :=
  match row.details with
  | StepDetails.normal c caps =>
    { prompt := row.prompt, complexity := c, required_capabilities := caps }
  | StepDetails.reevaluate =>
    { prompt := row.prompt, complexity := ComplexityLevel.low,
      required_capabilities := [] }

/-- The `required_capabilities` of a (normal) step row. -/
def row_capabilities (row : StepRow) : List ModelCapability :=
  match row.details with
  | StepDetails.normal _ caps => caps
  | StepDetails.reevaluate => []

/-- Python `str.strip()` on `String`. -/
def py_strip_str (s : String) : String := String.mk (py_strip s.data)

/-- `TaskStepExecutionService._build_step_context`. -/
def build_step_context (task : TaskRow) (step : StepRow) (all_steps : List StepRow) : String :=
  let context := "Task: " ++ (task.title.getD task.prompt) ++ "\n\n"
  let completed_steps := all_steps.filter (fun s =>
    s.status == StepStatus.completed && decide (s.step_number < step.step_number))
  let context := context ++
    (if completed_steps.isEmpty then "" else
      "Previous step results:\n" ++ String.join (completed_steps.map (fun prev =>
        "\nStep " ++ Nat.repr (prev.step_number + 1) ++ ": " ++ prev.prompt ++ "\n"
          ++ (match prev.step_type, prev.output with
              | StepType.normal, some out =>
                if out == "" then "" else "Output: " ++ out ++ "\n"
              | _, _ => ""))))
  context ++ "\nCurrent step (Step " ++ Nat.repr (step.step_number + 1) ++ "):\n"
    ++ step.prompt ++ "\n"

/-- `TaskStepExecutionService.execute_step`.  Two calls in its body pass
keyword arguments that `TaskRepo.update_task_step` does not declare and so
raise `TypeError` in Python: the model-selection branch passes
`predicted_score`/`predicted_length`, and the result-persisting call passes
`failure_reason`; both are embedded as the `TypeError` value at the
corresponding point.  Two intermediate steps are modelled from the spec so
the run reaches that final defect: `_load_files_for_step` reads
`step.required_file_ids`, undeclared on the committed `NormalTaskStep` (the
spec loads the step's files; none are persisted, so the list is empty), and
the config is `build_llm_config_modelled` because the committed builder
raises (see its comment).  The committed code would abort at either point
after the in-progress update and before persisting any result — the same
step and task rows as the raise this embedding runs into, differing only in
the error text and the skipped cost increment. -/
def execute_step (env : SysEnv) (step_id task_id user_id api_key : String) (db : DB) :
    DB × Except PyErr (List WorkQueueItem) :=
  match get_step_by_id db step_id with
  | Option.none =>
    (db, Except.error (.valueError
      ("Value Step " ++ step_id ++ " is None, which is unexpected")))
  | some step =>
    -- _ensure_step_is_normal
    if step.step_type == StepType.reevaluate then
      (db, Except.error (.taskStepExecutionError
        ("Step " ++ step.id ++ " is a reevaluate step and should not be passed to execute_step")))
    else
      match step.details with
      | StepDetails.reevaluate =>
        (db, Except.error (.taskStepExecutionError
          ("Step " ++ step.id ++ " is not a normal step")))
      | StepDetails.normal _ _ =>
        match get_task_by_id db task_id user_id with
        | Option.none =>
          (db, Except.error (.valueError
            ("Value Task " ++ task_id ++ " is None, which is unexpected")))
        | some task =>
          if step.model_name.isNone then
            match select_model_for_step env.selector (to_step_definition step) with
            | Except.error e => (db, Except.error e)
            | Except.ok _evaluation =>
              -- update_task_step(step_id=..., model_name=..., predicted_score=...,
              -- predicted_length=...): the latter two keywords are not
              -- parameters of update_task_step
              (db, Except.error (.typeError
                "update_task_step got an unexpected keyword argument predicted_score"))
          else
            let db1 := (update_task_step db step.id
              { status := some StepStatus.in_progress, started_at := some env.now }).1
            match get_steps_by_task_id db1 task.id task.user_id true with
            | Option.none =>
              (db1, Except.error (.valueError
                ("Value Steps for task " ++ task.id ++ " is None, which is unexpected")))
            | some all_steps =>
              let files : List FileMetadata := []
              let context := build_step_context task step all_steps
              let config := build_llm_config_modelled (row_capabilities step)
              let model_id := step.model_name.getD "google/gemini-2.5-flash-lite"
              match env.llm_complete api_key model_id context files config with
              | Except.error e => (db1, Except.error e)
              | Except.ok response =>
                match calculate_cost env.selector.get_model_by_id model_id response
                    files config with
                | Except.error e => (db1, Except.error e)
                | Except.ok cost =>
                  let db2 := add_cost_increment db1 task.id cost
                  let failure_reason := py_strip_str
                    (additional_data_get response.additional_data "failure_reason" "")
                  let _status := if failure_reason != "" then
                    StepStatus.could_not_complete else StepStatus.completed
                  -- update_task_step(step_id=..., status=..., response_content=...,
                  -- output=..., failure_reason=..., completed_at=...):
                  -- failure_reason is not a parameter of update_task_step, so
                  -- this call raises before the result is persisted
                  (db2, Except.error (.typeError
                    "update_task_step got an unexpected keyword argument failure_reason"))

/-- `TaskStepExecutionService._handle_step_failure` (reached by no execution
because `execute_step` raises first; embedded for completeness, with the
spec-modelled `create_reevaluation_step` and `make_task_reevaluation_item`). -/
def handle_step_failure (env : SysEnv) (task : TaskRow) (failed_step : StepRow)
    (failure_reason api_key : String) (db : DB) : DB × List WorkQueueItem :=
  let r := create_reevaluation_step env task.id failed_step.step_number failure_reason false db
  (r.1, [make_task_reevaluation_item task r.2.id api_key])

/-- `TaskStepExecutionService._get_next_work_items_and_check_if_done` (with
the spec-modelled `make_task_reevaluation_item`). -/
def get_next_work_items_and_check_if_done (task : TaskRow) (completed_step : StepRow)
    (all_steps : List StepRow) (api_key : String) : List WorkQueueItem × Bool :=
  let next_step_number := completed_step.step_number + 1
  let next_steps := all_steps.filter (fun s => s.step_number == next_step_number)
  match next_steps with
  | next :: _ =>
    if next.step_type == StepType.reevaluate then
      ([make_task_reevaluation_item task next.id api_key], false)
    else
      ([make_task_step_execution_item task next.id api_key], false)
  | [] => ([], all_steps.all (fun s => s.status == StepStatus.completed))

/-- `TaskDecompositionService.decompose_and_queue_task` (the LLM call and
strict JSON parsing of `decompose_task` are the `decompose_oracle`; event
emission does not touch the store). -/
def decompose_and_queue_task (env : SysEnv) (task_id user_id api_key : String) (db : DB) :
    DB × Except PyErr (List WorkQueueItem) :=
  match get_task_by_id db task_id user_id with
  | Option.none =>
    (db, Except.error (.valueError
      ("Value Task " ++ task_id ++ " is None, which is unexpected")))
  | some task =>
    match env.decompose_oracle task.prompt api_key with
    | Except.error e => (db, Except.error e)
    | Except.ok decomposition =>
      let r := update_task_after_steps_generation env task.id decomposition.1
        decomposition.2 db
      match r.2 with
      | Option.none =>
        (r.1, Except.error (.valueError
          ("Value Task " ++ task.id ++ " after decomposition is None, which is unexpected")))
      | some _updated =>
        match get_steps_by_task_id r.1 task.id user_id true with
        | Option.none =>
          (r.1, Except.error (.valueError
            ("Value Generated steps for task " ++ task.id ++ " is None, which is unexpected")))
        | some [] => (r.1, Except.ok [])
        | some (s0 :: _) =>
          (r.1, Except.ok [make_task_step_execution_item task s0.id api_key])

/-- `TaskDecompositionService.reevaluate_and_queue_task` (the LLM call and
parsing of `reevaluate_task` are the `reevaluate_oracle`; event emissions do
not touch the store). -/
def reevaluate_and_queue_task (env : SysEnv) (step_id task_id user_id api_key : String)
    (db : DB) : DB × Except PyErr (List WorkQueueItem) :=
  match get_task_by_id db task_id user_id with
  | Option.none =>
    (db, Except.error (.valueError
      ("Value Task " ++ task_id ++ " is None, which is unexpected")))
  | some task =>
    match get_step_by_id db step_id with
    | Option.none =>
      (db, Except.error (.valueError
        ("Value Step " ++ step_id ++ " is None, which is unexpected")))
    | some reevaluate_step =>
      if reevaluate_step.step_type != StepType.reevaluate then
        (db, Except.error (.taskDecompositionError
          ("Step " ++ step_id ++ " is not a reevaluate step")))
      else
        match get_steps_by_task_id db task.id user_id true with
        | Option.none =>
          (db, Except.error (.valueError
            ("Value Steps for task " ++ task.id ++ " is None, which is unexpected")))
        | some all_steps =>
          let steps_before := all_steps.filter (fun s =>
            decide (s.step_number < reevaluate_step.step_number))
          let incomplete_steps := steps_before.filter (fun s =>
            !(s.status == StepStatus.completed))
          if !incomplete_steps.isEmpty then
            (db, Except.error (.taskDecompositionError
              "Cannot reevaluate: steps before reevaluation are not completed"))
          else
            let db1 := (update_task_step db reevaluate_step.id
              { status := some StepStatus.in_progress, started_at := some env.now }).1
            match env.reevaluate_oracle task reevaluate_step steps_before api_key with
            | Except.error e => (db1, Except.error e)
            | Except.ok new_step_defs =>
              let db2 := (update_task_step db1 reevaluate_step.id
                { status := some StepStatus.completed, completed_at := some env.now }).1
              match get_step_by_id db2 reevaluate_step.id with
              | Option.none =>
                (db2, Except.error (.valueError
                  ("Value Reevaluate step " ++ reevaluate_step.id
                    ++ " after completion is None, which is unexpected")))
              | some _updated =>
                let db3 := mark_steps_as_abandoned_after db2 task.id
                  reevaluate_step.step_number
                let r := insert_new_steps_after_reevaluation env task.id
                  reevaluate_step.step_number new_step_defs db3
                match r.2 with
                | [] => (r.1, Except.ok [])
                | s0 :: _ =>
                  (r.1, Except.ok [make_task_step_execution_item task s0.id api_key])

/-- The body of `WorkQueueService._process_queue_loop` for one popped item:
dispatch on `item_type` — the loop tests only `DECOMPOSE_TASK` and
`EXECUTE_STEP`, so any other kind leaves `next_items` empty and performs
nothing — and on any exception mark the task failed (`update_task_final_status`
with no output) and keep going. -/
def process_one_item (env : SysEnv) (item : WorkQueueItem) (db : DB) :
    DB × List WorkQueueItem :=
  let attempt : DB × Except PyErr (List WorkQueueItem) :=
    match item.item_type with
    | WorkItemKind.decompose_task =>
      decompose_and_queue_task env item.task_id item.user_id item.api_key db
    | WorkItemKind.execute_step =>
      match item.step_id with
      | Option.none =>
        (db, Except.error (.valueError "Step ID is required for execute_step work item"))
      | some sid => execute_step env sid item.task_id item.user_id item.api_key db
    | WorkItemKind.reevaluate_task => (db, Except.ok [])
  match attempt with
  | (db', Except.ok items) => (db', items)
  | (db', Except.error _) =>
    ((update_task_final_status db' item.task_id TaskStatus.failed env.now none).1, [])

/-- `n` rounds of the consumer loop: pop the front item, process it, push the
returned follow-ups at the back; with an empty queue the consumer blocks and
the store no longer changes. -/
def run_queue (env : SysEnv) : Nat → DB → List WorkQueueItem → DB × List WorkQueueItem
  | 0, db, queue => (db, queue)
  | _ + 1, db, [] => (db, [])
  | n + 1, db, item :: rest =>
    let r := process_one_item env item db
    run_queue env n r.1 (rest ++ r.2)

/-- The rows with a given id are all `abandoned` (the shape of claim C8's
invariant). -/
def steps_abandoned_at (rid : String) (db : DB) : Prop :=
  ∀ row ∈ db.steps, row.id = rid → row.status = StepStatus.abandoned

/-- The rows `insert_steps_loop` appends, characterized by its running index
`i` and the value of the id counter at entry. -/
def inserted_rows (env : SysEnv) (task_id : String) (base : Nat) :
    Nat → Nat → List TaskStepDefinition → List StepRow
  | _, _, [] => []
  | i, counter, d :: rest =>
    step_row_of_def d (env.uuid counter) task_id (base + i)
      :: inserted_rows env task_id base (i + 1) (counter + 1) rest

/-! Concrete fixtures used to evaluate the embedded code. -/

/-- A concrete pricing table. -/
def pricing_fix : ModelPricing :=
  { prompt_per_million := 3
    completion_per_million := 15
    request := some (1 / 2)
    image := some (1 / 500) }

/-- A concrete catalogue entry. -/
def model_fix : ModelDescription :=
  ⟨"openai/gpt-4", ⟨["text", "image"]⟩, pricing_fix, []⟩

/-- A concrete model-cache lookup. -/
def lookup_fix : String → Option ModelDescription :=
  fun id => if id == "openai/gpt-4" then some model_fix else none

/-- A concrete assistant message with both token counts set. -/
def assistant_msg_fix : LlmMessage :=
  { role := "assistant", content := "ok",
    prompt_tokens := some 2000000, completion_tokens := some 1000000 }

/-- A concrete attached image (a subtype that survives the inverted
membership check of `get_image_type`). -/
def image_file_fix : FileMetadata :=
  ⟨"f1", "image/bmp", some 1000, none⟩

/-- A concrete text-only catalogue entry for the selector. -/
def selector_model_fix : ModelDescription :=
  ⟨"google/gemini-2.5-flash", ⟨["text"]⟩,
    { prompt_per_million := 1, completion_per_million := 2 }, []⟩

/-- A concrete selector environment whose catalogue holds exactly one model
and whose scoring service returns one inference for it. -/
def selector_env_fix : SelectorEnv :=
  { all_models := [selector_model_fix]
    get_model_by_id := fun id =>
      if id == "google/gemini-2.5-flash" then some selector_model_fix else none
    file_lookup := fun _ => none
    scoring := fun _ _ => .ok [⟨"google/gemini-2.5-flash", 1, 100⟩]
    sqrt := sqrt_model }

/-- A concrete step definition with no required capabilities or files. -/
def step_def_fix : NormalTaskStepDefinition :=
  { prompt := "Write a haiku about the sea.", complexity := ComplexityLevel.low,
    required_capabilities := [] }

/-- A concrete assistant response reporting inability: the `failure_reason`
additional datum is non-empty, both token counts are set. -/
def refusal_msg_fix : LlmMessage :=
  { role := "assistant", content := "done",
    additional_data := [("output", ""), ("failure_reason", "cannot answer without web browsing")],
    prompt_tokens := some 100, completion_tokens := some 50 }

/-- A concrete task in progress. -/
def sys_task_fix : TaskRow :=
  ⟨"t1", "u1", "Research the topic", some "Research", TaskStatus.in_progress,
    0, none, true, none⟩

/-- A concrete normal step whose model is already chosen. -/
def sys_step_fix : StepRow :=
  ⟨"s1", "t1", 0, "Browse and summarize", StepStatus.pending, StepType.normal,
    StepDetails.normal ComplexityLevel.low [], some "google/gemini-2.5-flash",
    none, none, none, none⟩

/-- A concrete environment for the queue-driven services: fresh ids are
`new-0`, `new-1`, …, the clock reads 1000, the LLM reports inability
(`refusal_msg_fix`) and reevaluation plans one replacement step. -/
def sys_env_fix : SysEnv :=
  { uuid := fun n => "new-" ++ Nat.repr n
    now := 1000
    selector := selector_env_fix
    llm_complete := fun _ _ _ _ _ => Except.ok refusal_msg_fix
    decompose_oracle := fun _ _ => Except.error (.taskDecompositionError "decomposition unavailable")
    reevaluate_oracle := fun _ _ _ _ =>
      Except.ok [TaskStepDefinition.normal_definition "Summarize the findings" ComplexityLevel.low []]
    file_lookup_user := fun _ _ => none }

/-- The store holding `sys_task_fix` and its single step. -/
def sys_db_fix : DB := ⟨[sys_task_fix], [sys_step_fix], [], 0⟩

/-- The EXECUTE work item for `sys_step_fix`. -/
def exec_item_fix : WorkQueueItem :=
  ⟨"t1", "u1", WorkItemKind.execute_step, some "s1", "key"⟩

/-- A completed first step for the reevaluation scenario. -/
def reeval_step0_fix : StepRow :=
  ⟨"s0", "t1", 0, "Collect the data", StepStatus.completed, StepType.normal,
    StepDetails.normal ComplexityLevel.low [], some "google/gemini-2.5-flash",
    some "resp", some "the data", some 10, some 20⟩

/-- The planned reevaluate step at `step_number = 1`. -/
def reeval_step1_fix : StepRow :=
  ⟨"sr", "t1", 1, "Reevaluate the plan", StepStatus.pending, StepType.reevaluate,
    StepDetails.reevaluate, none, none, none, none, none⟩

/-- A pending later step at `step_number = 2`, to be abandoned. -/
def reeval_step2_fix : StepRow :=
  ⟨"s2", "t1", 2, "Draft the report", StepStatus.pending, StepType.normal,
    StepDetails.normal ComplexityLevel.low [], none, none, none, none, none⟩

/-- The store for the reevaluation scenario. -/
def reeval_db_fix : DB :=
  ⟨[sys_task_fix], [reeval_step0_fix, reeval_step1_fix, reeval_step2_fix], [], 0⟩

end Llimit

/-! THEOREMS -/

namespace Llimit

/-- Claim C5 amended part: an event emitted to a user is appended to a
registered connection's queue iff (a) the filter's `event_types` is absent or
contains the event type (a present-but-empty list blocks every event), and
(b) for every metadata-filter key with a non-empty allowed-value list, the
event's metadata value for that key is either absent or belongs to the list;
`emit_event` applies exactly `send` to every connection of that user. -/
theorem emit_matches_iff (st : SseState) (uid : String) (e : SseEvent) :
    (emit_event st uid e).conns_of uid
      = (st.conns_of uid).map (fun cs => cs.map (fun c => c.send e))
    ∧ ∀ c : SseConnection,
        ((c.send e).queue = c.queue ++ [e] ↔
          ((∀ ts, c.filter.event_types = some ts → e.event_type ∈ ts)
           ∧ ∀ kv ∈ c.filter.metadata_filters, kv.2 ≠ [] →
               (metadata_get e.metadata kv.1 = none
                ∨ ∃ v, metadata_get e.metadata kv.1 = some v ∧ v ∈ kv.2)))
        ∧ ((c.send e).queue = c.queue ↔
            ¬ ((∀ ts, c.filter.event_types = some ts → e.event_type ∈ ts)
               ∧ ∀ kv ∈ c.filter.metadata_filters, kv.2 ≠ [] →
                   (metadata_get e.metadata kv.1 = none
                    ∨ ∃ v, metadata_get e.metadata kv.1 = some v ∧ v ∈ kv.2))) := by
  constructor
  · unfold emit_event SseState.conns_of
    simp only
    induction st.connections with
    | nil => simp
    | cons p rest ih =>
      by_cases h : p.1 == uid
      · simp [List.find?, h]
      · simp only [List.map_cons, List.find?, h]
        simpa [h] using ih
  · intro c
    have hmatch : c.filter.matches e = true ↔
        ((∀ ts, c.filter.event_types = some ts → e.event_type ∈ ts)
         ∧ ∀ kv ∈ c.filter.metadata_filters, kv.2 ≠ [] →
             (metadata_get e.metadata kv.1 = none
              ∨ ∃ v, metadata_get e.metadata kv.1 = some v ∧ v ∈ kv.2)) := by
      unfold EventFilter.matches
      rw [Bool.and_eq_true]
      constructor
      · rintro ⟨h1, h2⟩
        constructor
        · intro ts hts
          rw [hts] at h1
          simpa using h1
        · intro kv hkv hne
          have := List.all_eq_true.mp h2 kv hkv
          rcases hlk : metadata_get e.metadata kv.1 with _ | v
          · exact Or.inl rfl
          · refine Or.inr ⟨v, rfl, ?_⟩
            rw [hlk] at this
            have hkv2 : kv.2.isEmpty = false := by
              cases h2 : kv.2 <;> simp_all
            simpa [hkv2] using this
      · rintro ⟨h1, h2⟩
        constructor
        · cases hts : c.filter.event_types with
          | none => simp
          | some ts => simpa using h1 ts hts
        · rw [List.all_eq_true]
          intro kv hkv
          by_cases hne : kv.2 = []
          · simp [hne]
          · have := h2 kv hkv hne
            rcases this with hnone | ⟨v, hv, hvin⟩
            · simp [hnone]
            · have hkv2 : kv.2.isEmpty = false := by
                cases h2 : kv.2 <;> simp_all
              simpa [hkv2, hv] using hvin
    constructor
    · rw [← hmatch]
      unfold SseConnection.send
      constructor
      · intro hq
        by_contra hm
        rw [Bool.not_eq_true] at hm
        simp [hm] at hq
      · intro hm
        simp [hm]
    · rw [← hmatch]
      unfold SseConnection.send
      constructor
      · intro hq
        intro hm
        rw [hm] at hq
        simp at hq
      · intro hm
        rw [Bool.not_eq_true] at hm
        simp [hm]

/-- Witness for `emit_matches_iff` at a concrete service state and event. -/
theorem emit_matches_iff_witness :
    ((SseConnection.mk "u" "c1" (EventFilter.mk none [("task_id", ["t1"])]) []).send
        (SseEvent.mk "task.completed" [("task_id", "t1")])).queue
      = [SseEvent.mk "task.completed" [("task_id", "t1")]] := by
  have h := (emit_matches_iff (SseState.mk []) "u"
      (SseEvent.mk "task.completed" [("task_id", "t1")])).2
      (SseConnection.mk "u" "c1" (EventFilter.mk none [("task_id", ["t1"])]) [])
  have hq := h.1.mpr (by decide)
  simpa using hq

/-- Claim C5 counterexample: the claim's delivery condition (formalised from
the spec's words as `matches_spec`) disagrees with the code's
`EventFilter.matches` on two concrete inputs: a filter requiring
`task_id ∈ ["t1"]` matches an event carrying no metadata (the claim says it
must not), and a filter with a present-but-empty `event_types` list matches
nothing (the claim says it matches everything). -/
theorem matches_ne_spec :
    EventFilter.matches (EventFilter.mk none [("task_id", ["t1"])])
        (SseEvent.mk "task.step_completed" []) = true
    ∧ matches_spec (EventFilter.mk none [("task_id", ["t1"])])
        (SseEvent.mk "task.step_completed" []) = false
    ∧ EventFilter.matches (EventFilter.mk (some []) [])
        (SseEvent.mk "task.completed" []) = false
    ∧ matches_spec (EventFilter.mk (some []) [])
        (SseEvent.mk "task.completed" []) = true := by
  decide

/-- Claim C9: `update_task_step` modifies, in the matching row only, exactly
the columns whose optional argument is non-`None`; the identity columns and
every untouched column keep their value, rows with a different id (any task)
are returned unchanged, and an all-`None` call performs no write and returns
the stored row. -/
theorem update_task_step_frame (db : DB) (sid : String) (a : StepUpdateArgs) :
    ((update_task_step db sid a).1.steps
        = db.steps.map (fun r => if r.id == sid then apply_step_update a r else r))
    ∧ ((update_task_step db sid a).1.tasks = db.tasks
        ∧ (update_task_step db sid a).1.costs = db.costs)
    ∧ (∀ r : StepRow,
        (apply_step_update a r).id = r.id
        ∧ (apply_step_update a r).task_id = r.task_id
        ∧ (apply_step_update a r).step_number = r.step_number
        ∧ (apply_step_update a r).prompt = r.prompt
        ∧ (apply_step_update a r).step_type = r.step_type
        ∧ (apply_step_update a r).details = r.details
        ∧ (a.status = none → (apply_step_update a r).status = r.status)
        ∧ (∀ s, a.status = some s → (apply_step_update a r).status = s)
        ∧ (a.model_name = none → (apply_step_update a r).model_name = r.model_name)
        ∧ (∀ v, a.model_name = some v → (apply_step_update a r).model_name = some v)
        ∧ (a.response_content = none →
            (apply_step_update a r).response_content = r.response_content)
        ∧ (∀ v, a.response_content = some v →
            (apply_step_update a r).response_content = some v)
        ∧ (a.output = none → (apply_step_update a r).output = r.output)
        ∧ (∀ v, a.output = some v → (apply_step_update a r).output = some v)
        ∧ (a.started_at = none → (apply_step_update a r).started_at = r.started_at)
        ∧ (∀ v, a.started_at = some v → (apply_step_update a r).started_at = some v)
        ∧ (a.completed_at = none → (apply_step_update a r).completed_at = r.completed_at)
        ∧ (∀ v, a.completed_at = some v → (apply_step_update a r).completed_at = some v))
    ∧ (a.isNoop = true →
        (update_task_step db sid a).1 = db
        ∧ (update_task_step db sid a).2 = get_step_by_id db sid) := by
  refine ⟨?_, ⟨?_, ?_⟩, ?_, ?_⟩
  · unfold update_task_step
    by_cases h : a.isNoop
    · have hs : a.status = none := by
        unfold StepUpdateArgs.isNoop at h
        simp only [Bool.and_eq_true, Option.isNone_iff_eq_none] at h
        exact h.1.1.1.1.1
      have hm : a.model_name = none := by
        unfold StepUpdateArgs.isNoop at h
        simp only [Bool.and_eq_true, Option.isNone_iff_eq_none] at h
        exact h.1.1.1.1.2
      have hr : a.response_content = none := by
        unfold StepUpdateArgs.isNoop at h
        simp only [Bool.and_eq_true, Option.isNone_iff_eq_none] at h
        exact h.1.1.1.2
      have ho : a.output = none := by
        unfold StepUpdateArgs.isNoop at h
        simp only [Bool.and_eq_true, Option.isNone_iff_eq_none] at h
        exact h.1.1.2
      have hst : a.started_at = none := by
        unfold StepUpdateArgs.isNoop at h
        simp only [Bool.and_eq_true, Option.isNone_iff_eq_none] at h
        exact h.1.2
      have hc : a.completed_at = none := by
        unfold StepUpdateArgs.isNoop at h
        simp only [Bool.and_eq_true, Option.isNone_iff_eq_none] at h
        exact h.2
      have : ∀ r : StepRow, apply_step_update a r = r := by
        intro r
        unfold apply_step_update
        rw [hs, hm, hr, ho, hst, hc]
        rfl
      simp only [h, if_pos]
      conv_lhs => rw [show db.steps = db.steps.map id from (List.map_id _).symm]
      simp only [List.map_inj_left]
      intro r _
      by_cases hid : r.id == sid <;> simp [hid, this r]
    · simp [h]
  · unfold update_task_step
    by_cases h : a.isNoop <;> simp [h]
  · unfold update_task_step
    by_cases h : a.isNoop <;> simp [h]
  · intro r
    unfold apply_step_update
    refine ⟨rfl, rfl, rfl, rfl, rfl, rfl, ?_⟩
    constructor
    · intro h; simp [h]
    constructor
    · intro s h; simp [h]
    constructor
    · intro h; simp [h]
    constructor
    · intro v h; simp [h]
    constructor
    · intro h; simp [h]
    constructor
    · intro v h; simp [h]
    constructor
    · intro h; simp [h]
    constructor
    · intro v h; simp [h]
    constructor
    · intro h; simp [h]
    constructor
    · intro v h; simp [h]
    constructor
    · intro h; simp [h]
    · intro v h; simp [h]
  · intro h
    unfold update_task_step
    simp [h]

/-- Witness for `update_task_step_frame` at a concrete database: the no-op
call leaves the store unchanged and returns the stored row. -/
theorem update_task_step_frame_witness :
    (StepUpdateArgs.mk none none none none none none).isNoop = true
    ∧ (update_task_step
        (DB.mk [] [StepRow.mk "s1" "t1" 0 "p" StepStatus.pending StepType.normal
          (StepDetails.normal ComplexityLevel.low []) none none none none none] [] 0)
        "s1" (StepUpdateArgs.mk none none none none none none)).1
      = DB.mk [] [StepRow.mk "s1" "t1" 0 "p" StepStatus.pending StepType.normal
          (StepDetails.normal ComplexityLevel.low []) none none none none none] [] 0 := by
  refine ⟨by decide, ?_⟩
  exact (update_task_step_frame
    (DB.mk [] [StepRow.mk "s1" "t1" 0 "p" StepStatus.pending StepType.normal
      (StepDetails.normal ComplexityLevel.low []) none none none none none] [] 0)
    "s1" (StepUpdateArgs.mk none none none none none none)).2.2.2 (by decide) |>.1

/-! Primitive lemmas about the scanning helpers. -/

theorem isPrefixOf_append_self (l t : List Char) : l.isPrefixOf (l ++ t) = true := by
  induction l with
  | nil => simp [List.isPrefixOf]
  | cons a l ih => simpa [List.isPrefixOf] using ih

theorem isPrefixOf_cons_of_ne {a c : Char} {l s : List Char} (h : a ≠ c) :
    (a :: l).isPrefixOf (c :: s) = false := by
  simp [List.isPrefixOf, h]

theorem mem_of_isPrefixOf : ∀ {l s : List Char}, l.isPrefixOf s = true → ∀ x ∈ l, x ∈ s := by
  intro l
  induction l with
  | nil => intro s h x hx; cases hx
  | cons a l ih =>
    intro s h x hx
    cases s with
    | nil => simp [List.isPrefixOf] at h
    | cons b t =>
      simp only [List.isPrefixOf, Bool.and_eq_true, beq_iff_eq] at h
      rcases List.mem_cons.mp hx with hxa | hxl
      · exact List.mem_cons.mpr (Or.inl (hxa.trans h.1))
      · exact List.mem_cons.mpr (Or.inr (ih h.2 x hxl))

theorem mem_of_isSuffixOf {l s : List Char} (h : l.isSuffixOf s = true) {x : Char}
    (hx : x ∈ l) : x ∈ s := by
  unfold List.isSuffixOf at h
  have := mem_of_isPrefixOf h x (by simpa using hx)
  simpa using this

theorem open_match_at_nil : open_match_at [] = none := by decide

theorem open_match_at_cons_ne {c : Char} {s : List Char} (hc : c ≠ '<') :
    open_match_at (c :: s) = none := by
  unfold open_match_at
  have : open_lit.isPrefixOf (c :: s) = false := by
    have he : open_lit = '<' :: "additional_data key=".data := rfl
    rw [he]
    exact isPrefixOf_cons_of_ne (fun h => hc h.symm)
  simp [this]

theorem takeWhile_ne_append {k r : List Char} (hk : '>' ∉ k) :
    (k ++ '>' :: r).takeWhile (fun c => !(c == '>')) = k := by
  induction k with
  | nil => simp [List.takeWhile]
  | cons a k ih =>
    have ha : a ≠ '>' := fun h => hk (h ▸ List.mem_cons_self a k)
    have hk' : '>' ∉ k := fun h => hk (List.mem_cons_of_mem a h)
    simp [List.takeWhile_cons, beq_iff_eq, ha, ih hk']

theorem open_match_at_hit {k r : List Char} (hne : k ≠ []) (hk : '>' ∉ k) :
    open_match_at (open_lit ++ (k ++ '>' :: r)) = some (k, r) := by
  unfold open_match_at
  rw [isPrefixOf_append_self]
  simp only [if_true]
  rw [List.drop_left]
  rw [takeWhile_ne_append hk]
  have hlen : (k ++ '>' :: r).drop k.length = '>' :: r := List.drop_left k ('>' :: r)
  rw [hlen]
  simp [hne]

theorem find_opening_tag_cons (c : Char) (t : List Char) :
    find_opening_tag (c :: t)
      = (match open_match_at (c :: t) with
         | some (k, r) => some ([], k, r)
         | none => (find_opening_tag t).map (fun x => (c :: x.1, x.2.1, x.2.2))) := rfl

theorem find_opening_tag_hit {p k r : List Char} (hp : '<' ∉ p) (hne : k ≠ [])
    (hk : '>' ∉ k) :
    find_opening_tag (p ++ (open_lit ++ (k ++ '>' :: r))) = some (p, k, r) := by
  induction p with
  | nil =>
    have hol : open_lit = '<' :: "additional_data key=".data := rfl
    rw [List.nil_append]
    rw [show open_lit ++ (k ++ '>' :: r) = '<' :: ("additional_data key=".data ++ (k ++ '>' :: r)) from by rw [hol]; rfl]
    rw [find_opening_tag_cons]
    rw [show ('<' :: ("additional_data key=".data ++ (k ++ '>' :: r))) = open_lit ++ (k ++ '>' :: r) from by rw [hol]; rfl]
    rw [open_match_at_hit hne hk]
  | cons c p ih =>
    have hc : c ≠ '<' := fun h => hp (h ▸ List.mem_cons_self c p)
    have hp' : '<' ∉ p := fun h => hp (List.mem_cons_of_mem c h)
    rw [List.cons_append, find_opening_tag_cons, open_match_at_cons_ne hc]
    simp only
    rw [ih hp']
    rfl

theorem find_opening_tag_none {s : List Char} (hs : '<' ∉ s) :
    find_opening_tag s = none := by
  induction s with
  | nil => decide
  | cons c t ih =>
    have hc : c ≠ '<' := fun h => hs (h ▸ List.mem_cons_self c t)
    have ht : '<' ∉ t := fun h => hs (List.mem_cons_of_mem c h)
    rw [find_opening_tag_cons, open_match_at_cons_ne hc]
    simp only
    rw [ih ht]
    rfl

theorem find_first_occ_hit {v r : List Char} (hv : '<' ∉ v) :
    find_first_occ close_lit (v ++ (close_lit ++ r)) = some (v, r) := by
  induction v with
  | nil =>
    unfold find_first_occ
    rw [List.nil_append, isPrefixOf_append_self]
    simp [List.drop_left]
  | cons c v ih =>
    have hc : c ≠ '<' := fun h => hv (h ▸ List.mem_cons_self c v)
    have hv' : '<' ∉ v := fun h => hv (List.mem_cons_of_mem c h)
    unfold find_first_occ
    have hpre : close_lit.isPrefixOf (c :: (v ++ (close_lit ++ r))) = false := by
      have he : close_lit = '<' :: "/additional_data>".data := rfl
      rw [he]
      exact isPrefixOf_cons_of_ne (fun h => hc h.symm)
    rw [List.cons_append, hpre]
    simp only [Bool.false_eq_true, if_false]
    rw [ih hv']
    rfl

theorem find_first_occ_none {s : List Char} (hs : '<' ∉ s) :
    find_first_occ close_lit s = none := by
  induction s with
  | nil => decide
  | cons c t ih =>
    have hc : c ≠ '<' := fun h => hs (h ▸ List.mem_cons_self c t)
    have ht : '<' ∉ t := fun h => hs (List.mem_cons_of_mem c h)
    unfold find_first_occ
    have hpre : close_lit.isPrefixOf (c :: t) = false := by
      have he : close_lit = '<' :: "/additional_data>".data := rfl
      rw [he]
      exact isPrefixOf_cons_of_ne (fun h => hc h.symm)
    rw [hpre]
    simp only [Bool.false_eq_true, if_false]
    rw [ih ht]
    rfl

theorem find_safe_content_end_full {s pat t : List Char} (hpat : pat = '<' :: t)
    (hs : '<' ∉ s) : find_safe_content_end s pat = s.length := by
  unfold find_safe_content_end
  have hnone : (List.range' 1 (min pat.length s.length)).find?
      (fun i => (pat.take i).isSuffixOf s) = none := by
    rw [List.find?_eq_none]
    intro i hi
    have hi1 : 1 ≤ i := by
      have := List.mem_range'.mp hi
      omega
    intro hsuf
    apply hs
    apply mem_of_isSuffixOf hsuf
    rw [hpat]
    cases i with
    | zero => omega
    | succ j => simp [List.take]
  rw [hnone]

/-! Lemmas about the streaming machine on well-formed input. -/

theorem seg_ok_plain {p : List Char} (h : seg_ok (Seg.plain p) = true) : '<' ∉ p := by
  simp [seg_ok] at h
  exact h

theorem seg_ok_tag {k v : List Char} (h : seg_ok (Seg.tag k v) = true) :
    k ≠ [] ∧ '>' ∉ k ∧ py_strip k = k ∧ '<' ∉ v ∧ py_strip v = v := by
  simp [seg_ok] at h
  obtain ⟨⟨⟨⟨h1, h2⟩, h3⟩, h4⟩, h5⟩ := h
  exact ⟨by simpa [List.isEmpty_iff] using h1, h2, h3, h4, h5⟩

theorem chunks_of_render_nil : ∀ {segs : List Seg}, render segs = [] → chunks_of segs = [] := by
  intro segs
  induction segs with
  | nil => intro _; rfl
  | cons s rest ih =>
    intro h
    cases s with
    | plain p =>
      rw [render] at h
      have hp : p = [] := by
        cases p with
        | nil => rfl
        | cons a t => simp at h
      have hr : render rest = [] := by
        rw [hp] at h
        simpa using h
      rw [chunks_of, hp]
      simpa using ih hr
    | tag k v =>
      rw [render] at h
      simp at h

theorem run_loop_succ (n : Nat) (buffer : List Char) (st : PState) :
    run_loop (n + 1) buffer st
      = if buffer.isEmpty then (buffer, st, [])
        else
          let r := step_state buffer st
          if r.1.isEmpty then r
          else
            let r2 := run_loop n r.1 r.2.1
            (r2.1, r2.2.1, r.2.2 ++ r2.2.2) := rfl

theorem render_length_tag (k v : List Char) (rest : List Seg) :
    (render (Seg.tag k v :: rest)).length
      = 21 + k.length + 1 + v.length + 18 + (render rest).length := by
  rw [render]
  simp [List.length_append, open_lit, close_lit]
  omega

/-- The streaming machine on one delta in normal form, starting outside a
tag: it drains the buffer, returns to the initial state, and emits one plain
chunk per non-empty plain run and one keyed chunk per tag. -/
theorem run_loop_render : ∀ n : Nat, ∀ segs : List Seg,
    (render segs).length < n → delta_ok segs = true → (∀ s ∈ segs, seg_ok s = true) →
    run_loop n (render segs) pstate0 = ([], pstate0, chunks_of segs) := by
  intro n
  induction n using Nat.strong_induction_on with
  | _ n ih =>
  intro segs hlen hdelta hseg
  -- the shared core: a (possibly empty) '<'-free plain run followed by a tag
  have core : ∀ (p k v : List Char) (rest2 : List Seg),
      segs = Seg.plain p :: Seg.tag k v :: rest2 ∨ (p = [] ∧ segs = Seg.tag k v :: rest2) →
      '<' ∉ p → seg_ok (Seg.tag k v) = true → delta_ok rest2 = true →
      (∀ s ∈ rest2, seg_ok s = true) →
      (p ++ (open_lit ++ (k ++ '>' :: (v ++ (close_lit ++ render rest2))))).length < n →
      run_loop n (p ++ (open_lit ++ (k ++ '>' :: (v ++ (close_lit ++ render rest2))))) pstate0
        = ([], pstate0,
            (if p.isEmpty then [] else [⟨p, none⟩])
              ++ (⟨v, some k⟩ :: chunks_of rest2)) := by
    intro p k v rest2 _ hp htag hdrest hsrest hblen
    obtain ⟨hkne, hkgt, hkstrip, hvlt, _⟩ := seg_ok_tag htag
    -- buffer is non-empty (it contains the opening literal)
    have hbne : (p ++ (open_lit ++ (k ++ '>' :: (v ++ (close_lit ++ render rest2))))) ≠ [] := by
      intro h
      rcases List.append_eq_nil.mp h with ⟨_, h2⟩
      rcases List.append_eq_nil.mp h2 with ⟨h3, _⟩
      exact absurd h3 (by decide)
    obtain ⟨m, rfl⟩ : ∃ m, n = m + 1 := ⟨n - 1, by omega⟩
    rw [run_loop_succ]
    rw [if_neg (by simpa [List.isEmpty_iff] using hbne)]
    -- first iteration: the opening-tag handler finds the tag
    have hstep1 : step_state
        (p ++ (open_lit ++ (k ++ '>' :: (v ++ (close_lit ++ render rest2))))) pstate0
        = (v ++ (close_lit ++ render rest2), ⟨true, some k, []⟩,
           if p.isEmpty then [] else [⟨p, none⟩]) := by
      rw [step_state]
      rw [if_neg (by simp [pstate0])]
      rw [process_opening_tag_state]
      rw [find_opening_tag_hit hp hkne hkgt]
      simp [hkstrip]
    rw [hstep1]
    simp only
    have hrest1ne : (v ++ (close_lit ++ render rest2)).isEmpty = false := by
      have hne : (v ++ (close_lit ++ render rest2)) ≠ [] := by
        intro h
        rcases List.append_eq_nil.mp h with ⟨_, h2⟩
        rcases List.append_eq_nil.mp h2 with ⟨h3, _⟩
        exact absurd h3 (by decide)
      simpa [List.isEmpty_iff] using hne
    rw [if_neg (by simp [hrest1ne])]
    -- second iteration: the closing-tag handler finds the closing literal
    obtain ⟨m2, rfl⟩ : ∃ m2, m = m2 + 1 := by
      refine ⟨m - 1, ?_⟩
      have : 1 ≤ m := by
        have h40 : 40 ≤ (p ++ (open_lit ++ (k ++ '>' :: (v ++ (close_lit ++ render rest2))))).length := by
          simp [List.length_append, open_lit, close_lit]
          omega
        omega
      omega
    rw [run_loop_succ]
    rw [if_neg (by simp [hrest1ne])]
    have hstep2 : step_state (v ++ (close_lit ++ render rest2)) ⟨true, some k, []⟩
        = (render rest2, pstate0, [⟨v, some k⟩]) := by
      rw [step_state]
      rw [if_pos rfl]
      rw [process_closing_tag_state]
      rw [find_first_occ_hit hvlt]
      simp [pstate0]
    rw [hstep2]
    simp only
    by_cases hrnil : (render rest2).isEmpty
    · rw [if_pos hrnil]
      have h0 : chunks_of rest2 = [] := chunks_of_render_nil (List.isEmpty_iff.mp hrnil)
      rw [h0]
      rw [List.isEmpty_iff.mp hrnil]
    · rw [if_neg hrnil]
      have hlen2 : (render rest2).length < m2 := by
        have h40 : (p ++ (open_lit ++ (k ++ '>' :: (v ++ (close_lit ++ render rest2))))).length
            = p.length + 21 + k.length + 1 + v.length + 18 + (render rest2).length := by
          simp [List.length_append, open_lit, close_lit]
          omega
        omega
      rw [ih m2 (by omega) rest2 hlen2 hdrest hsrest]
      rfl
  -- case analysis on the segment list
  match segs, hdelta, hseg, hlen with
  | [], _, _, hlen =>
    obtain ⟨m, rfl⟩ : ∃ m, n = m + 1 := ⟨n - 1, by omega⟩
    rw [run_loop_succ]
    rfl
  | [Seg.plain p], _, hseg, hlen =>
    have hp : '<' ∉ p := seg_ok_plain (hseg _ (List.mem_cons_self _ _))
    cases hpn : p with
    | nil =>
      obtain ⟨m, rfl⟩ : ∃ m, n = m + 1 := ⟨n - 1, by omega⟩
      rw [run_loop_succ]
      simp [render, chunks_of]
    | cons a t =>
      subst hpn
      obtain ⟨m, rfl⟩ : ∃ m, n = m + 1 := ⟨n - 1, by omega⟩
      rw [run_loop_succ]
      have hrend : render [Seg.plain (a :: t)] = a :: t := by simp [render]
      rw [hrend]
      rw [if_neg (by simp)]
      have hstep : step_state (a :: t) pstate0 = ([], pstate0, [⟨a :: t, none⟩]) := by
        rw [step_state]
        rw [if_neg (by simp [pstate0])]
        rw [process_opening_tag_state]
        rw [find_opening_tag_none hp]
        have hsafe : find_safe_content_end (a :: t) open_tag_lit = (a :: t).length :=
          find_safe_content_end_full rfl hp
        simp only [hsafe]
        rw [if_pos (by simp)]
        simp [List.take_length, List.drop_length, pstate0]
      rw [hstep]
      simp [chunks_of]
  | Seg.plain p :: Seg.plain q :: rest, hdelta, _, _ =>
    simp [delta_ok] at hdelta
  | Seg.plain p :: Seg.tag k v :: rest2, hdelta, hseg, hlen =>
    have hp : '<' ∉ p := seg_ok_plain (hseg _ (List.mem_cons_self _ _))
    have htag : seg_ok (Seg.tag k v) = true :=
      hseg _ (List.mem_cons_of_mem _ (List.mem_cons_self _ _))
    have hdrest : delta_ok rest2 = true := hdelta
    have hsrest : ∀ s ∈ rest2, seg_ok s = true := fun s hs =>
      hseg s (List.mem_cons_of_mem _ (List.mem_cons_of_mem _ hs))
    have hsh : render (Seg.plain p :: Seg.tag k v :: rest2)
        = p ++ (open_lit ++ (k ++ '>' :: (v ++ (close_lit ++ render rest2)))) := by
      rw [render, render]
      simp [List.append_assoc]
    rw [hsh] at hlen ⊢
    have := core p k v rest2 (Or.inl rfl) hp htag hdrest hsrest hlen
    rw [this]
    rw [chunks_of, chunks_of]
  | Seg.tag k v :: rest2, hdelta, hseg, hlen =>
    have htag : seg_ok (Seg.tag k v) = true := hseg _ (List.mem_cons_self _ _)
    have hdrest : delta_ok rest2 = true := hdelta
    have hsrest : ∀ s ∈ rest2, seg_ok s = true := fun s hs =>
      hseg s (List.mem_cons_of_mem _ hs)
    have hsh : render (Seg.tag k v :: rest2)
        = [] ++ (open_lit ++ (k ++ '>' :: (v ++ (close_lit ++ render rest2)))) := by
      rw [render]
      simp [List.append_assoc]
    rw [hsh] at hlen ⊢
    have := core [] k v rest2 (Or.inr ⟨rfl, rfl⟩) (by simp) htag hdrest hsrest hlen
    rw [this]
    rw [chunks_of]
    simp

/-! Lemmas about the non-streaming parse on well-formed input. -/

theorem try_match_at_hit {k v r : List Char} (hne : k ≠ []) (hk : '>' ∉ k)
    (hv : '<' ∉ v) :
    try_match_at (open_lit ++ (k ++ '>' :: (v ++ (close_lit ++ r)))) = some (k, v, r) := by
  unfold try_match_at
  rw [open_match_at_hit hne hk]
  simp [find_first_occ_hit hv]

theorem try_match_at_cons_ne {c : Char} {s : List Char} (hc : c ≠ '<') :
    try_match_at (c :: s) = none := by
  unfold try_match_at
  rw [open_match_at_cons_ne hc]

theorem find_match_cons (c : Char) (t : List Char) :
    find_match (c :: t)
      = (match try_match_at (c :: t) with
         | some (k, v, rest) => some ([], k, v, rest)
         | none => (find_match t).map (fun x => (c :: x.1, x.2))) := rfl

theorem find_match_nil : find_match [] = none := by decide

theorem find_match_hit {k v r : List Char} (hne : k ≠ []) (hk : '>' ∉ k)
    (hv : '<' ∉ v) :
    find_match (open_lit ++ (k ++ '>' :: (v ++ (close_lit ++ r)))) = some ([], k, v, r) := by
  have he : open_lit ++ (k ++ '>' :: (v ++ (close_lit ++ r)))
      = '<' :: ("additional_data key=".data ++ (k ++ '>' :: (v ++ (close_lit ++ r)))) := rfl
  rw [he, find_match_cons, ← he, try_match_at_hit hne hk hv]

theorem find_match_prepend {p : List Char} (hp : '<' ∉ p) (s : List Char) :
    find_match (p ++ s) = (find_match s).map (fun x => (p ++ x.1, x.2)) := by
  induction p with
  | nil =>
    simp only [List.nil_append]
    cases h : find_match s with
    | none => simp
    | some x => simp
  | cons c p ih =>
    have hc : c ≠ '<' := fun h => hp (h ▸ List.mem_cons_self c p)
    have hp' : '<' ∉ p := fun h => hp (List.mem_cons_of_mem c h)
    rw [List.cons_append, find_match_cons, try_match_at_cons_ne hc]
    simp only
    rw [ih hp']
    cases h : find_match s with
    | none => simp
    | some x => simp

theorem find_match_none {s : List Char} (hs : '<' ∉ s) : find_match s = none := by
  have := find_match_prepend hs []
  simpa [find_match_nil] using this

theorem find_all_matches_prepend {p : List Char} (hp : '<' ∉ p) (n : Nat) (s : List Char) :
    find_all_matches n (p ++ s)
      = ((find_all_matches n s).1, p ++ (find_all_matches n s).2) := by
  cases n with
  | zero => rfl
  | succ m =>
    rw [find_all_matches, find_all_matches]
    rw [find_match_prepend hp s]
    cases h : find_match s with
    | none => simp
    | some x =>
      obtain ⟨b, k, v, r⟩ := x
      simp [List.append_assoc]

/-- The scan of `re.findall`/`re.sub` on a rendered well-formed segment list
returns exactly its tags in order, and the unmatched remainder is exactly the
concatenation of its plain segments. -/
theorem find_all_matches_render : ∀ (segs : List Seg), (∀ s ∈ segs, seg_ok s = true) →
    ∀ n : Nat, (render segs).length < n →
    find_all_matches n (render segs) = (seg_tags segs, plains_concat segs) := by
  intro segs
  induction segs with
  | nil =>
    intro _ n hn
    obtain ⟨m, rfl⟩ : ∃ m, n = m + 1 := ⟨n - 1, by omega⟩
    rw [render, find_all_matches, find_match_nil]
    rfl
  | cons s rest ih =>
    intro hseg n hn
    cases s with
    | plain p =>
      have hp : '<' ∉ p := seg_ok_plain (hseg _ (List.mem_cons_self _ _))
      have hrest : ∀ s ∈ rest, seg_ok s = true := fun s hs =>
        hseg s (List.mem_cons_of_mem _ hs)
      rw [render]
      rw [find_all_matches_prepend hp n (render rest)]
      have hlen : (render rest).length < n := by
        rw [render] at hn
        simp [List.length_append] at hn
        omega
      rw [ih hrest n hlen]
      rw [seg_tags, plains_concat]
    | tag k v =>
      obtain ⟨hkne, hkgt, _, hvlt, _⟩ := seg_ok_tag (hseg _ (List.mem_cons_self _ _))
      have hrest : ∀ s ∈ rest, seg_ok s = true := fun s hs =>
        hseg s (List.mem_cons_of_mem _ hs)
      obtain ⟨m, rfl⟩ : ∃ m, n = m + 1 := ⟨n - 1, by omega⟩
      have hsh : render (Seg.tag k v :: rest)
          = open_lit ++ (k ++ '>' :: (v ++ (close_lit ++ render rest))) := by
        rw [render]
        simp [List.append_assoc]
      rw [hsh]
      rw [find_all_matches]
      rw [find_match_hit hkne hkgt hvlt]
      have hlen : (render rest).length < m := by
        rw [hsh] at hn
        simp [List.length_append, open_lit, close_lit] at hn
        omega
      simp only [ih hrest m hlen]
      rw [seg_tags, plains_concat]
      simp

theorem seg_tags_strip_id : ∀ {segs : List Seg}, (∀ s ∈ segs, seg_ok s = true) →
    (seg_tags segs).map (fun kv => (py_strip kv.1, py_strip kv.2)) = seg_tags segs := by
  intro segs
  induction segs with
  | nil => intro _; rfl
  | cons s rest ih =>
    intro hseg
    have hrest : ∀ x ∈ rest, seg_ok x = true := fun x hx =>
      hseg x (List.mem_cons_of_mem _ hx)
    cases s with
    | plain p => rw [seg_tags]; exact ih hrest
    | tag k v =>
      obtain ⟨_, _, hks, _, hvs⟩ := seg_ok_tag (hseg _ (List.mem_cons_self _ _))
      rw [seg_tags, List.map_cons, hks, hvs, ih hrest]

/-- `_parse_additional_data` on a rendered well-formed segment list. -/
theorem parse_additional_data_render (segs : List Seg)
    (hseg : ∀ s ∈ segs, seg_ok s = true) :
    parse_additional_data (render segs)
      = (py_strip (plains_concat segs), seg_tags segs) := by
  unfold parse_additional_data
  rw [find_all_matches_render segs hseg ((render segs).length + 1) (by omega)]
  simp only
  rw [seg_tags_strip_id hseg]

/-! Composition across deltas and the grouping of chunks. -/

theorem render_append (a b : List Seg) : render (a ++ b) = render a ++ render b := by
  induction a with
  | nil => rfl
  | cons s rest ih =>
    cases s with
    | plain p => simp [render, ih, List.append_assoc]
    | tag k v => simp [render, ih, List.append_assoc]

theorem render_flatten (D : List (List Seg)) :
    (D.map render).flatten = render D.flatten := by
  induction D with
  | nil => rfl
  | cons d D ih => simp [render_append, ih]

theorem plains_concat_append (a b : List Seg) :
    plains_concat (a ++ b) = plains_concat a ++ plains_concat b := by
  induction a with
  | nil => rfl
  | cons s rest ih =>
    cases s with
    | plain p => simp [plains_concat, ih, List.append_assoc]
    | tag k v => simp [plains_concat, ih]

theorem seg_tags_append (a b : List Seg) :
    seg_tags (a ++ b) = seg_tags a ++ seg_tags b := by
  induction a with
  | nil => rfl
  | cons s rest ih =>
    cases s with
    | plain p => simp [seg_tags, ih]
    | tag k v => simp [seg_tags, ih]

/-- The full streamed run over a partition whose deltas are in normal form:
one `chunks_of` block per delta, and the end-of-stream flush is empty because
the buffer is drained after every delta. -/
theorem stream_chunks_eq (D : List (List Seg))
    (hdelta : ∀ d ∈ D, delta_ok d = true)
    (hseg : ∀ d ∈ D, ∀ s ∈ d, seg_ok s = true) :
    stream_chunks (D.map render) = (D.map chunks_of).flatten := by
  unfold stream_chunks
  have hfold : ∀ (acc : List StreamedChunk),
      (D.map render).foldl
        (fun (acc : List Char × PState × List StreamedChunk) delta =>
          let buffer := acc.1 ++ delta
          let r := run_loop (buffer.length + 1) buffer acc.2.1
          (r.1, r.2.1, acc.2.2 ++ r.2.2))
        ([], pstate0, acc)
      = ([], pstate0, acc ++ (D.map chunks_of).flatten) := by
    induction D with
    | nil => intro acc; simp
    | cons d D ih =>
      intro acc
      have hd : delta_ok d = true := hdelta d (List.mem_cons_self _ _)
      have hs : ∀ s ∈ d, seg_ok s = true := hseg d (List.mem_cons_self _ _)
      have hdelta' : ∀ x ∈ D, delta_ok x = true := fun x hx =>
        hdelta x (List.mem_cons_of_mem _ hx)
      have hseg' : ∀ x ∈ D, ∀ s ∈ x, seg_ok s = true := fun x hx =>
        hseg x (List.mem_cons_of_mem _ hx)
      simp only [List.map_cons, List.foldl_cons]
      rw [show ([] : List Char) ++ render d = render d from List.nil_append _]
      rw [run_loop_render ((render d).length + 1) d (by omega) hd hs]
      have := ih hdelta' hseg' (acc ++ chunks_of d)
      simp only at this ⊢
      rw [this]
      simp [List.append_assoc]
  rw [hfold []]
  simp

theorem null_concat_append (a b : List StreamedChunk) :
    null_concat (a ++ b) = null_concat a ++ null_concat b := by
  simp [null_concat, List.filterMap_append]

theorem key_concat_append (k : List Char) (a b : List StreamedChunk) :
    key_concat k (a ++ b) = key_concat k a ++ key_concat k b := by
  simp [key_concat, List.filterMap_append]

theorem null_concat_chunks_of (segs : List Seg) :
    null_concat (chunks_of segs) = plains_concat segs := by
  induction segs with
  | nil => rfl
  | cons s rest ih =>
    cases s with
    | plain p =>
      rw [chunks_of, plains_concat, null_concat_append, ih]
      by_cases hp : p.isEmpty
      · rw [if_pos hp, List.isEmpty_iff.mp hp]
        rfl
      · rw [if_neg hp]
        simp [null_concat]
    | tag k v =>
      rw [chunks_of, plains_concat]
      rw [show (⟨v, some k⟩ : StreamedChunk) :: chunks_of rest
          = [⟨v, some k⟩] ++ chunks_of rest from rfl]
      rw [null_concat_append, ih]
      simp [null_concat]

/-- The values carried by the tags with a given (exact) key, concatenated. -/
def values_for (k : List Char) (pairs : List (List Char × List Char)) : List Char :=
  (pairs.filterMap (fun kv => if kv.1 == k then some kv.2 else none)).flatten

theorem values_for_append (k : List Char) (a b : List (List Char × List Char)) :
    values_for k (a ++ b) = values_for k a ++ values_for k b := by
  simp [values_for, List.filterMap_append]

theorem key_concat_chunks_of (k : List Char) (segs : List Seg) :
    key_concat k (chunks_of segs) = values_for k (seg_tags segs) := by
  induction segs with
  | nil => rfl
  | cons s rest ih =>
    cases s with
    | plain p =>
      rw [chunks_of, seg_tags, key_concat_append, ih]
      by_cases hp : p.isEmpty
      · rw [if_pos hp]
        rfl
      · rw [if_neg hp]
        simp [key_concat]
    | tag k0 v =>
      rw [chunks_of, seg_tags]
      rw [show (⟨v, some k0⟩ : StreamedChunk) :: chunks_of rest
          = [⟨v, some k0⟩] ++ chunks_of rest from rfl]
      rw [show ((k0, v) :: seg_tags rest) = [(k0, v)] ++ seg_tags rest from rfl]
      rw [key_concat_append, values_for_append, ih]
      by_cases hk : k0 == k
      · have hkeq : k0 = k := beq_iff_eq.mp hk
        simp [key_concat, values_for, hkeq]
      · have hkne : ¬ k0 = k := by simpa using hk
        simp [key_concat, values_for, hkne]

theorem values_for_not_mem {k : List Char} {pairs : List (List Char × List Char)}
    (h : k ∉ pairs.map (·.1)) : values_for k pairs = [] := by
  induction pairs with
  | nil => rfl
  | cons kv rest ih =>
    have hne : ¬ kv.1 == k := by
      simp only [List.map_cons, List.mem_cons] at h
      simp only [beq_iff_eq]
      intro he
      exact h (Or.inl he.symm)
    have hrest : k ∉ rest.map (·.1) := by
      simp only [List.map_cons, List.mem_cons] at h
      exact fun hx => h (Or.inr hx)
    have hne2 : ¬ kv.1 = k := by simpa using hne
    rw [show kv :: rest = [kv] ++ rest from rfl, values_for_append, ih hrest]
    simp [values_for, hne2]

theorem dict_get_not_mem {k : List Char} {pairs : List (List Char × List Char)}
    (h : k ∉ pairs.map (·.1)) : dict_get pairs k = none := by
  unfold dict_get
  rw [List.find?_eq_none.mpr]
  · rfl
  · intro kv hkv
    simp only [beq_iff_eq]
    intro he
    apply h
    rw [← he]
    exact List.mem_map_of_mem _ (by simpa using hkv)

/-- With pairwise distinct keys, last-write-wins lookup and grouped
concatenation agree. -/
theorem values_for_eq_dict_get {pairs : List (List Char × List Char)}
    (h : (pairs.map (·.1)).Nodup) (k : List Char) :
    values_for k pairs = (dict_get pairs k).getD [] := by
  induction pairs with
  | nil => rfl
  | cons kv rest ih =>
    have hnd : (kv.1 ∉ rest.map (·.1)) ∧ (rest.map (·.1)).Nodup := by
      rw [List.map_cons] at h
      exact List.nodup_cons.mp h
    by_cases hk : kv.1 == k
    · have hkeq : kv.1 = k := beq_iff_eq.mp hk
      have hnot : k ∉ rest.map (·.1) := by
        rw [← hkeq]
        exact hnd.1
      rw [show kv :: rest = [kv] ++ rest from rfl, values_for_append,
        values_for_not_mem hnot]
      have hdict : dict_get ([kv] ++ rest) k = some kv.2 := by
        unfold dict_get
        rw [List.reverse_append]
        rw [List.find?_append]
        rw [List.find?_eq_none.mpr]
        · simp [hk]
        · intro x hx
          simp only [beq_iff_eq]
          intro he
          apply hnot
          rw [← he]
          exact List.mem_map_of_mem _ (by simpa using hx)
      rw [hdict]
      simp [values_for, hkeq]
    · have hkne : ¬ kv.1 = k := by simpa using hk
      have hdict : dict_get (kv :: rest) k = dict_get rest k := by
        unfold dict_get
        rw [show (kv :: rest) = [kv] ++ rest from rfl, List.reverse_append]
        rw [List.find?_append]
        cases hfind : rest.reverse.find? (fun p => p.1 == k) with
        | some x => simp
        | none => simp [hk]
      rw [hdict, ← ih hnd.2]
      simp [values_for, List.filterMap_cons, hkne]

theorem null_concat_flatten (D : List (List Seg)) :
    null_concat ((D.map chunks_of).flatten) = plains_concat D.flatten := by
  induction D with
  | nil => rfl
  | cons d D ih =>
    simp only [List.map_cons, List.flatten_cons, List.flatten_cons]
    rw [null_concat_append, null_concat_chunks_of, ih, plains_concat_append]

theorem key_concat_flatten (k : List Char) (D : List (List Seg)) :
    key_concat k ((D.map chunks_of).flatten) = values_for k (seg_tags D.flatten) := by
  induction D with
  | nil => rfl
  | cons d D ih =>
    simp only [List.map_cons, List.flatten_cons]
    rw [key_concat_append, key_concat_chunks_of, ih, seg_tags_append, values_for_append]

/-- Claim C6 amended: take any text T that alternates plain segments and
well-formed tags (plain segments and values hold no `<`, keys are non-empty,
hold no `>`, are stripped and pairwise distinct, values are stripped, and the
concatenated plain text is stripped), and any partition of T into deltas that
never cuts through a tag (each delta presented in normal form).  Then feeding
the deltas to the streaming parser and grouping the emitted chunk contents by
`additional_data_key` agrees with the non-streaming parse of T: the null-key
concatenation equals the cleaned content, and for every key the keyed
concatenation equals that key's entry of the additional-data dict. -/
theorem stream_equals_parse (D : List (List Seg))
    (hdelta : ∀ d ∈ D, delta_ok d = true)
    (hseg : ∀ s ∈ D.flatten, seg_ok s = true)
    (hkeys : ((seg_tags D.flatten).map (·.1)).Nodup)
    (hstrip : py_strip (plains_concat D.flatten) = plains_concat D.flatten) :
    null_concat (stream_chunks (D.map render))
        = (parse_additional_data ((D.map render).flatten)).1
    ∧ ∀ k : List Char,
        key_concat k (stream_chunks (D.map render))
          = (dict_get (parse_additional_data ((D.map render).flatten)).2 k).getD [] := by
  have hseg' : ∀ d ∈ D, ∀ s ∈ d, seg_ok s = true := fun d hd s hs =>
    hseg s (List.mem_flatten.mpr ⟨d, hd, hs⟩)
  rw [stream_chunks_eq D hdelta hseg']
  rw [render_flatten]
  rw [parse_additional_data_render D.flatten hseg]
  simp only
  constructor
  · rw [hstrip, null_concat_flatten]
  · intro k
    rw [key_concat_flatten, values_for_eq_dict_get hkeys]

/-- Witness for `stream_equals_parse` on the concrete partition
`["Hello " + tag(a, v1), "world"]`. -/
theorem stream_equals_parse_witness :
    null_concat (stream_chunks
        ([[Seg.plain "Hello ".data, Seg.tag "a".data "v1".data],
          [Seg.plain "world".data]].map render))
      = (parse_additional_data
          (([[Seg.plain "Hello ".data, Seg.tag "a".data "v1".data],
             [Seg.plain "world".data]].map render).flatten)).1
    ∧ ∀ k : List Char,
        key_concat k (stream_chunks
          ([[Seg.plain "Hello ".data, Seg.tag "a".data "v1".data],
            [Seg.plain "world".data]].map render))
          = (dict_get (parse_additional_data
              (([[Seg.plain "Hello ".data, Seg.tag "a".data "v1".data],
                 [Seg.plain "world".data]].map render).flatten)).2 k).getD [] :=
  stream_equals_parse
    [[Seg.plain "Hello ".data, Seg.tag "a".data "v1".data], [Seg.plain "world".data]]
    (by decide) (by decide) (by decide) (by decide)

/-- Claim C6 counterexample: for the one-delta partition of the text
consisting of a single space followed by `x`, the concatenation of the
null-key chunk contents keeps the leading space, while the non-streaming
cleaned content is stripped; the two sides differ. -/
theorem stream_parse_strip_counterexample :
    null_concat (stream_chunks [" x".data]) = " x".data
    ∧ (parse_additional_data ([" x".data].flatten)).1 = "x".data
    ∧ " x".data ≠ "x".data := by
  refine ⟨by decide, by decide, by decide⟩

/-- Claim C2: evaluating the streaming parser at the failing input of
scenario S5 — the upstream delivers the text in two deltas split inside the
opening tag.  The parser emits the partial tag text `<additional_d` as a
plain chunk (a proper non-empty piece of the opening literal, shown by the
second conjunct) and then the rest of the tag, closing literal included, as
another plain chunk (third conjunct); the tag is split across chunks and
never recognised, where the claim requires the chunks
`Hello `, `(v1, key=a)`, ` world`. -/
theorem stream_chunks_splits_tag :
    stream_chunks ["Hello <additional_d".data, "ata key=a>v1</additional_data> world".data]
      = [⟨"Hello ".data, none⟩, ⟨"<additional_d".data, none⟩,
         ⟨"ata key=a>v1</additional_data> world".data, none⟩]
    ∧ "<additional_d".data = open_lit.take 13 ∧ ("<additional_d".data ≠ [])
    ∧ (find_first_occ close_lit "ata key=a>v1</additional_data> world".data).isSome = true := by
  refine ⟨by decide, by decide, by decide, by decide⟩

/-- Claim C7: evaluating `calculate_cost` at the failing input.  For an
assistant message with both token counts set and one attached image, the
claim predicts `prompt_tokens × 3/1e6 + completion_tokens × 15/1e6 + 1/2 +
1/500`; the code instead raises `TypeError`, because `_calculate_file_costs`
ends without a `return` statement and the caller adds its `None` to the
running total.  The second conjunct records the claimed error on unset token
counts, which the code does produce. -/
theorem calculate_cost_image_raises :
    calculate_cost lookup_fix "openai/gpt-4" assistant_msg_fix [image_file_fix]
        LlmConfig.default
      = .error (.typeError "unsupported operand types for +=: float and NoneType")
    ∧ calculate_cost lookup_fix "openai/gpt-4"
        { role := "assistant", content := "ok" } [] LlmConfig.default
      = .error (.valueError "Token counts are not set for assistant message") := by
  constructor <;> decide

/-- Claim C4 counterexample: on exactly the two candidates of the claim,
`(score 2, cost 1)` and `(score 1, cost 1/4)`, the selector does not return
the second candidate — it raises `AttributeError`, because the cutoff test
reads `estimated_cost` from a `_NormalizedEntry`, which has no such field. -/
theorem select_best_model_pair_counterexample :
    select_best_model sqrt_model
        [⟨"m1", 2, 100, 1⟩, ⟨"m2", 1, 100, 1 / 4⟩] ≠ .ok ⟨"m2", 1, 100, 1 / 4⟩
    ∧ select_best_model sqrt_model [⟨"m1", 2, 100, 1⟩, ⟨"m2", 1, 100, 1 / 4⟩]
      = .error (.attributeError "_NormalizedEntry object has no attribute estimated_cost") := by
  constructor <;> decide

/-- Claim C4 amended: for every candidate set of two or more model
evaluations, the selector normalises scores and costs by z-score over the set
and takes the raw-cost median, but the subsequent cost-cutoff test reads the
nonexistent `estimated_cost` attribute of the normalised entry, so selection
fails with `AttributeError` for every such set (whatever `math.sqrt`
computes); in particular it never reaches the `score / sqrt(cost + 0.01)`
utility comparison. -/
theorem select_best_model_two_or_more_errors (sqrt : ℚ → ℚ)
    (evaluations : List ModelEvaluation) (h : 2 ≤ evaluations.length) :
    select_best_model sqrt evaluations
      = .error (.attributeError "_NormalizedEntry object has no attribute estimated_cost") := by
  match evaluations with
  | [] => simp at h
  | [e] => simp at h
  | a :: b :: rest => rfl

/-- Witness for `select_best_model_two_or_more_errors` at a concrete pair of
evaluations. -/
theorem select_best_model_two_or_more_errors_witness :
    2 ≤ ([⟨"ma", 0, 50, 2⟩, ⟨"mb", 1, 60, 3⟩] : List ModelEvaluation).length
    ∧ select_best_model sqrt_model [⟨"ma", 0, 50, 2⟩, ⟨"mb", 1, 60, 3⟩]
      = .error (.attributeError "_NormalizedEntry object has no attribute estimated_cost") :=
  ⟨by decide, select_best_model_two_or_more_errors sqrt_model
    [⟨"ma", 0, 50, 2⟩, ⟨"mb", 1, 60, 3⟩] (by decide)⟩

/-- Claim C10: when modality and capability filtering leaves exactly one
candidate model, `select_model_for_step` is claimed to return that model’s
evaluation unconditionally, the cutoffs running only for two or more —
refuted: the committed `select_model_for_step` raises for every environment
and every step definition, because `_filter_by_input_modalities` reads the
undeclared `step.required_file_ids` before any filtering happens; and even
past that, `_evaluate_models` fails on every input (the `LlmConfig`
construction with the undeclared `pdf` keyword raises inside its `try`, so
`TaskModelSelectionError` is raised), so no call ever returns an evaluation
and the cutoff code is unreachable for every candidate-set size. -/
theorem select_model_for_step_always_raises (env : SelectorEnv)
    (step : NormalTaskStepDefinition) :
    select_model_for_step env step
      = Except.error (PyErr.attributeError
          "NormalTaskStepDefinition object has no attribute required_file_ids")
    ∧ ∀ model_ids, evaluate_models env model_ids step
      = Except.error (PyErr.taskModelSelectionError "Failed to evaluate models") := by
  constructor
  · rfl
  · intro model_ids
    cases hs : env.scoring model_ids step.prompt with
    | error e => simp [evaluate_models, hs, bind, Except.bind]
    | ok infs =>
      simp [evaluate_models, hs, bind, Except.bind, build_llm_config_for_capabilities]

/-- Claim C1: the consumer loop is claimed to dispatch every popped item by
its kind, REEVALUATE included — refuted: the loop body tests only
`DECOMPOSE_TASK` and `EXECUTE_STEP`, so for every environment, store and
popped item of the REEVALUATE kind, processing changes nothing and produces
no follow-up items; the reevaluator is never invoked through the queue. -/
theorem reevaluate_items_never_dispatched (env : SysEnv) (item : WorkQueueItem)
    (db : DB) (h : item.item_type = WorkItemKind.reevaluate_task) :
    process_one_item env item db = (db, []) := by
  unfold process_one_item
  rw [h]

/-- Witness for `reevaluate_items_never_dispatched` on the concrete
reevaluation scenario: the REEVALUATE item for the pending reevaluate step is
dropped. -/
theorem reevaluate_items_never_dispatched_witness :
    process_one_item sys_env_fix
      ⟨"t1", "u1", WorkItemKind.reevaluate_task, some "sr", "key"⟩ reeval_db_fix
      = (reeval_db_fix, []) :=
  reevaluate_items_never_dispatched sys_env_fix
    ⟨"t1", "u1", WorkItemKind.reevaluate_task, some "sr", "key"⟩ reeval_db_fix rfl

/-- Claim C3: a normal step whose LLM response carries a non-empty
`failure_reason` is claimed to become `could_not_complete` with an unplanned
reevaluate step and a REEVALUATE item, without failing the task — refuted on
a concrete run: the response's `failure_reason` is non-empty, yet
`execute_step` raises `TypeError` at the result-persisting `update_task_step`
call (it passes the undeclared `failure_reason` keyword), so the step stays
`in_progress`, no reevaluate step is inserted, no work item is returned, and
the consumer's exception handler marks the task `failed`. -/
theorem failure_reason_crashes_step_execution :
    py_strip_str (additional_data_get refusal_msg_fix.additional_data "failure_reason" "") ≠ ""
    ∧ (execute_step sys_env_fix "s1" "t1" "u1" "key" sys_db_fix).2
      = Except.error (PyErr.typeError
          "update_task_step got an unexpected keyword argument failure_reason")
    ∧ (process_one_item sys_env_fix exec_item_fix sys_db_fix).2 = []
    ∧ (process_one_item sys_env_fix exec_item_fix sys_db_fix).1.steps
      = [{ sys_step_fix with status := StepStatus.in_progress, started_at := some 1000 }]
    ∧ (process_one_item sys_env_fix exec_item_fix sys_db_fix).1.tasks
      = [{ sys_task_fix with status := TaskStatus.failed, completed_at := some 1000 }] := by
  refine ⟨by decide, ?_, ?_, ?_, ?_⟩ <;> decide

/-! Supporting lemmas for the reevaluation invariant (claim C8). -/

/-- `find?` commutes with a map that leaves the tested predicate invariant. -/
lemma find?_map_pred {α : Type} (l : List α) (f : α → α) (p : α → Bool)
    (hf : ∀ a, p (f a) = p a) : (l.map f).find? p = (l.find? p).map f := by
  induction l with
  | nil => rfl
  | cons a rest ih =>
    simp only [List.map_cons, List.find?, hf a]
    cases p a <;> simp [ih]

/-- `apply_step_update` changes no identity column. -/
lemma apply_step_update_id (a : StepUpdateArgs) (r : StepRow) :
    (apply_step_update a r).id = r.id := rfl

/-- `apply_step_update` changes no `task_id`. -/
lemma apply_step_update_task_id (a : StepUpdateArgs) (r : StepRow) :
    (apply_step_update a r).task_id = r.task_id := rfl

/-- `apply_step_update` changes no `step_number`. -/
lemma apply_step_update_step_number (a : StepUpdateArgs) (r : StepRow) :
    (apply_step_update a r).step_number = r.step_number := rfl

/-- Reading a step after a (write-performing) `update_task_step`. -/
lemma get_step_by_id_update (db : DB) (sid : String) (a : StepUpdateArgs)
    (h : a.isNoop = false) (sid2 : String) :
    get_step_by_id (update_task_step db sid a).1 sid2
      = (get_step_by_id db sid2).map
          (fun r => if r.id == sid then apply_step_update a r else r) := by
  unfold update_task_step
  rw [h]
  simp only [Bool.false_eq_true, if_false]
  exact find?_map_pred db.steps _ _ (fun r => by
    by_cases hr : r.id == sid <;> simp [hr, apply_step_update_id])

/-- The steps table after a `update_task_step` that writes. -/
lemma update_task_step_steps (db : DB) (sid : String) (a : StepUpdateArgs)
    (h : a.isNoop = false) :
    (update_task_step db sid a).1.steps
      = db.steps.map (fun r => if r.id == sid then apply_step_update a r else r) := by
  unfold update_task_step
  rw [h]
  simp only [Bool.false_eq_true, if_false]

/-- `update_task_step` never touches the tasks table. -/
lemma update_task_step_tasks (db : DB) (sid : String) (a : StepUpdateArgs) :
    (update_task_step db sid a).1.tasks = db.tasks := by
  unfold update_task_step
  split <;> rfl

/-- `update_task_step` never touches the id counter. -/
lemma update_task_step_next_id (db : DB) (sid : String) (a : StepUpdateArgs) :
    (update_task_step db sid a).1.next_id = db.next_id := by
  unfold update_task_step
  split <;> rfl

/-- `update_task_final_status` never touches the steps table. -/
lemma update_task_final_status_steps (db : DB) (tid : String) (st : TaskStatus)
    (c : Nat) (o : Option String) :
    (update_task_final_status db tid st c o).1.steps = db.steps := rfl

/-- Every row `inserted_rows` describes carries a generated id. -/
lemma inserted_rows_id (env : SysEnv) (tid : String) (base : Nat) :
    ∀ (ds : List TaskStepDefinition) (i counter : Nat),
    ∀ r ∈ inserted_rows env tid base i counter ds, ∃ n, r.id = env.uuid n := by
  intro ds
  induction ds with
  | nil => intro i counter r hr; cases hr
  | cons d rest ih =>
    intro i counter r hr
    rw [inserted_rows] at hr
    rcases List.mem_cons.mp hr with hr | hr
    · exact ⟨counter, by rw [hr]; rfl⟩
    · exact ih (i + 1) (counter + 1) r hr

/-- The store effect of `insert_steps_loop`, unconditionally: it appends the
described rows, bumps the counter, and leaves tasks and costs alone. -/
lemma insert_steps_loop_state (env : SysEnv) (tid : String) (base : Nat) :
    ∀ (ds : List TaskStepDefinition) (i : Nat) (db : DB),
    (insert_steps_loop env tid base i ds db).1
      = { db with
          steps := db.steps ++ inserted_rows env tid base i db.next_id ds
          next_id := db.next_id + ds.length } := by
  intro ds
  induction ds with
  | nil => intro i db; simp [insert_steps_loop, inserted_rows]
  | cons d rest ih =>
    intro i db
    rw [insert_steps_loop]
    simp only [ih, inserted_rows, List.length_cons]
    simp [DB.mk.injEq, List.append_assoc]
    omega
/-- `find?` skips a prefix in which nothing matches. -/
lemma find?_append_first_none {α : Type} (l1 l2 : List α) (p : α → Bool)
    (h : l1.find? p = none) : (l1 ++ l2).find? p = l2.find? p := by
  induction l1 with
  | nil => rfl
  | cons a rest ih =>
    rw [List.find?] at h
    cases hp : p a
    · rw [hp] at h
      simp only [cond_false] at h
      simp only [List.cons_append, List.find?, hp, cond_false]
      exact ih h
    · rw [hp] at h
      simp at h

/-- The rows `insert_steps_loop` reads back: when the generated ids collide
neither with stored rows nor with each other, the created list is exactly the
inserted one. -/
lemma insert_steps_loop_created (env : SysEnv) (tid : String) (base : Nat) :
    ∀ (ds : List TaskStepDefinition) (i : Nat) (db : DB),
    (∀ k, k < ds.length → ∀ r ∈ db.steps, env.uuid (db.next_id + k) ≠ r.id) →
    (∀ k l, k < ds.length → l < ds.length → k ≠ l →
      env.uuid (db.next_id + k) ≠ env.uuid (db.next_id + l)) →
    (insert_steps_loop env tid base i ds db).2
      = inserted_rows env tid base i db.next_id ds := by
  intro ds
  induction ds with
  | nil => intro i db _ _; rfl
  | cons d rest ih =>
    intro i db hfresh hinj
    rw [insert_steps_loop, inserted_rows]
    simp only
    have hfind : get_step_by_id
        { db with
          next_id := db.next_id + 1
          steps := db.steps ++ [step_row_of_def d (env.uuid db.next_id) tid (base + i)] }
        (env.uuid db.next_id)
        = some (step_row_of_def d (env.uuid db.next_id) tid (base + i)) := by
      unfold get_step_by_id
      simp only
      rw [find?_append_first_none]
      · simp [List.find?, step_row_of_def]
      · rw [List.find?_eq_none]
        intro r hr
        have h0 := hfresh 0 (by simp) r hr
        rw [Nat.add_zero] at h0
        simp [step_row_of_def, h0.symm]
    rw [hfind]
    have harith : ∀ k : Nat, db.next_id + 1 + k = db.next_id + (k + 1) :=
      fun k => by omega
    have hrec := ih (i + 1)
      { db with
        next_id := db.next_id + 1
        steps := db.steps ++ [step_row_of_def d (env.uuid db.next_id) tid (base + i)] }
      (by
        intro k hk r hr
        simp only at hr ⊢
        rw [harith k]
        rcases List.mem_append.mp hr with hr | hr
        · exact hfresh (k + 1) (by simpa using Nat.succ_lt_succ hk) r hr
        · have hr' := List.mem_singleton.mp hr
          rw [hr']
          have hne := hinj (k + 1) 0 (by simp [Nat.succ_lt_succ hk])
            (by simp) (by omega)
          rw [Nat.add_zero] at hne
          simpa [step_row_of_def] using hne)
      (by
        intro k l hk hl hkl
        simp only
        rw [harith k, harith l]
        exact hinj (k + 1) (l + 1) (by simpa using Nat.succ_lt_succ hk)
          (by simpa using Nat.succ_lt_succ hl) (by omega))
    simp only at hrec
    rw [hrec]
    rfl
/-- The whole-store form of a write-performing `update_task_step`. -/
lemma update_task_step_write (db : DB) (sid : String) (a : StepUpdateArgs)
    (h : a.isNoop = false) :
    (update_task_step db sid a).1
      = { db with
          steps := db.steps.map (fun r => if r.id == sid then apply_step_update a r else r) } := by
  unfold update_task_step
  rw [h]
  simp only [Bool.false_eq_true, if_false]

/-- The successful run of `reevaluate_and_queue_task`, symbolically: given
the reads it performs and freshness of the generated ids, it completes the
reevaluate step, abandons the later steps, appends the new rows numbered from
`step_number + 1`, and queues the first new step. -/
lemma reevaluate_run (env : SysEnv) (db : DB) (sid tid uid key : String)
    (task : TaskRow) (rstep : StepRow) (all_steps : List StepRow)
    (defs : List TaskStepDefinition)
    (htask : get_task_by_id db tid uid = some task)
    (hstep : get_step_by_id db sid = some rstep)
    (htype : rstep.step_type = StepType.reevaluate)
    (hsteps : get_steps_by_task_id db task.id uid true = some all_steps)
    (hcomplete : ((all_steps.filter (fun s =>
        decide (s.step_number < rstep.step_number))).filter
        (fun s => !(s.status == StepStatus.completed))).isEmpty = true)
    (horacle : env.reevaluate_oracle task rstep
        (all_steps.filter (fun s => decide (s.step_number < rstep.step_number))) key
        = Except.ok defs)
    (hfresh : ∀ k, k < defs.length → ∀ r ∈ db.steps, env.uuid (db.next_id + k) ≠ r.id)
    (hinj : ∀ k l, k < defs.length → l < defs.length → k ≠ l →
        env.uuid (db.next_id + k) ≠ env.uuid (db.next_id + l)) :
    reevaluate_and_queue_task env sid tid uid key db
      = ({ db with
            steps :=
              (((db.steps.map (fun r => if r.id == rstep.id then
                  apply_step_update
                    { status := some StepStatus.in_progress, started_at := some env.now } r
                  else r)).map (fun r => if r.id == rstep.id then
                  apply_step_update
                    { status := some StepStatus.completed, completed_at := some env.now } r
                  else r)).map (fun r =>
                  if r.task_id == task.id && decide (rstep.step_number < r.step_number) then
                    { r with status := StepStatus.abandoned } else r))
              ++ inserted_rows env task.id (rstep.step_number + 1) 0 db.next_id defs
            next_id := db.next_id + defs.length },
         Except.ok (if defs.isEmpty then []
           else [make_task_step_execution_item task (env.uuid db.next_id) key])) := by
  have hstep2 := hstep
  unfold get_step_by_id at hstep2
  have hsid : rstep.id = sid := by
    have h := List.find?_some hstep2
    exact beq_iff_eq.mp h
  unfold reevaluate_and_queue_task
  rw [htask, hstep]
  simp only [htype, bne_self_eq_false, Bool.false_eq_true, if_false, hsteps]
  simp only [hcomplete, Bool.not_true, Bool.false_eq_true, if_false]
  rw [update_task_step_write db rstep.id
    { status := some StepStatus.in_progress, started_at := some env.now } rfl]
  simp only [horacle]
  rw [update_task_step_write _ rstep.id
    { status := some StepStatus.completed, completed_at := some env.now } rfl]
  have hfind2 :
      ((db.steps.map (fun r => if r.id == rstep.id then
          apply_step_update
            { status := some StepStatus.in_progress, started_at := some env.now } r
          else r)).map (fun r => if r.id == rstep.id then
          apply_step_update
            { status := some StepStatus.completed, completed_at := some env.now } r
          else r)).find? (fun r => r.id == rstep.id)
        = some (apply_step_update
            { status := some StepStatus.completed, completed_at := some env.now }
            (apply_step_update
              { status := some StepStatus.in_progress, started_at := some env.now } rstep)) := by
    rw [find?_map_pred _ _ _ (fun r => by
      by_cases hr : r.id == rstep.id <;> simp [hr, apply_step_update_id])]
    rw [find?_map_pred _ _ _ (fun r => by
      by_cases hr : r.id == rstep.id <;> simp [hr, apply_step_update_id])]
    rw [hsid, hstep2]
    simp [apply_step_update_id, hsid]
  have hget : get_step_by_id
      { tasks := db.tasks
        steps := (db.steps.map (fun r => if r.id == rstep.id then
            apply_step_update
              { status := some StepStatus.in_progress, started_at := some env.now } r
            else r)).map (fun r => if r.id == rstep.id then
            apply_step_update
              { status := some StepStatus.completed, completed_at := some env.now } r
            else r)
        costs := db.costs
        next_id := db.next_id } rstep.id
      = some (apply_step_update
          { status := some StepStatus.completed, completed_at := some env.now }
          (apply_step_update
            { status := some StepStatus.in_progress, started_at := some env.now } rstep)) := by
    unfold get_step_by_id
    exact hfind2
  rw [hget]
  simp only [mark_steps_as_abandoned_after, insert_new_steps_after_reevaluation]
  have hid1 : ∀ (a : StepUpdateArgs) (x : StepRow),
      (if x.id == rstep.id then apply_step_update a x else x).id = x.id := by
    intro a x
    split <;> rfl
  have hid2 : ∀ x : StepRow,
      (if x.task_id == task.id && decide (rstep.step_number < x.step_number) then
        { x with status := StepStatus.abandoned } else x).id = x.id := by
    intro x
    split <;> rfl
  have hfresh3 : ∀ k, k < defs.length →
      ∀ r ∈ (((db.steps.map (fun r => if r.id == rstep.id then
          apply_step_update
            { status := some StepStatus.in_progress, started_at := some env.now } r
          else r)).map (fun r => if r.id == rstep.id then
          apply_step_update
            { status := some StepStatus.completed, completed_at := some env.now } r
          else r)).map (fun r =>
          if r.task_id == task.id && decide (rstep.step_number < r.step_number) then
            { r with status := StepStatus.abandoned } else r)),
      env.uuid (db.next_id + k) ≠ r.id := by
    intro k hk r hr
    obtain ⟨r2, hr2, rfl⟩ := List.mem_map.mp hr
    obtain ⟨r1, hr1, rfl⟩ := List.mem_map.mp hr2
    obtain ⟨r0, hr0, rfl⟩ := List.mem_map.mp hr1
    rw [hid2, hid1, hid1]
    exact hfresh k hk r0 hr0
  have hins1 := insert_steps_loop_state env task.id (rstep.step_number + 1) defs 0
    { tasks := db.tasks
      steps := (((db.steps.map (fun r => if r.id == rstep.id then
          apply_step_update
            { status := some StepStatus.in_progress, started_at := some env.now } r
          else r)).map (fun r => if r.id == rstep.id then
          apply_step_update
            { status := some StepStatus.completed, completed_at := some env.now } r
          else r)).map (fun r =>
          if r.task_id == task.id && decide (rstep.step_number < r.step_number) then
            { r with status := StepStatus.abandoned } else r))
      costs := db.costs
      next_id := db.next_id }
  have hins2 := insert_steps_loop_created env task.id (rstep.step_number + 1) defs 0
    { tasks := db.tasks
      steps := (((db.steps.map (fun r => if r.id == rstep.id then
          apply_step_update
            { status := some StepStatus.in_progress, started_at := some env.now } r
          else r)).map (fun r => if r.id == rstep.id then
          apply_step_update
            { status := some StepStatus.completed, completed_at := some env.now } r
          else r)).map (fun r =>
          if r.task_id == task.id && decide (rstep.step_number < r.step_number) then
            { r with status := StepStatus.abandoned } else r))
      costs := db.costs
      next_id := db.next_id }
    (by
      intro k hk r hr
      exact hfresh3 k hk r hr)
    (by
      intro k l hk hl hkl
      exact hinj k l hk hl hkl)
  simp only [hins2, hins1]
  clear hins1 hins2 hfresh3
  revert hfresh hinj horacle hcomplete
  cases defs with
  | nil => intro _ _ _ _; simp [inserted_rows]
  | cons d0 drest => intro _ _ _ _; simp [inserted_rows, step_row_of_def]
/-- Membership is invariant under `py_sort_insert`. -/
lemma mem_py_sort_insert {α : Type} (le : α → α → Bool) (a x : α) :
    ∀ l : List α, x ∈ py_sort_insert le a l ↔ x = a ∨ x ∈ l := by
  intro l
  induction l with
  | nil => simp [py_sort_insert]
  | cons b rest ih =>
    rw [py_sort_insert]
    by_cases h : le a b = true
    · rw [if_pos h]
      simp
    · rw [if_neg h]
      simp only [List.mem_cons, ih]
      tauto

/-- Membership is invariant under `py_sort_by`. -/
lemma mem_py_sort_by {α : Type} (le : α → α → Bool) (x : α) :
    ∀ l : List α, x ∈ py_sort_by le l ↔ x ∈ l := by
  intro l
  induction l with
  | nil => simp [py_sort_by]
  | cons b rest ih =>
    rw [py_sort_by, mem_py_sort_insert]
    simp only [List.mem_cons, ih]


/-- `execute_step` either leaves the store untouched or (at most) marks its
own step in progress, and it never returns successfully: every control path
of the committed code ends in a raise (`TypeError` at the result-persisting
call at the latest). -/
lemma execute_step_effect (env : SysEnv) (s t u k : String) (db : DB) :
    ((execute_step env s t u k db).1.steps = db.steps
      ∨ (execute_step env s t u k db).1.steps
          = db.steps.map (fun r => if r.id == s then
              apply_step_update
                { status := some StepStatus.in_progress, started_at := some env.now } r
              else r))
    ∧ ∀ items, (execute_step env s t u k db).2 ≠ Except.ok items := by
  unfold execute_step
  cases hstep : get_step_by_id db s with
  | none => exact ⟨Or.inl rfl, fun items h => Except.noConfusion h⟩
  | some step =>
    have hsid : step.id = s := by
      unfold get_step_by_id at hstep
      have h2 := List.find?_some hstep
      simp only [beq_iff_eq] at h2
      exact h2
    subst hsid
    simp only []
    by_cases htype2 : (step.step_type == StepType.reevaluate) = true
    · rw [if_pos htype2]
      exact ⟨Or.inl rfl, fun items h => Except.noConfusion h⟩
    · rw [if_neg htype2]
      cases hdet : step.details with
      | reevaluate => exact ⟨Or.inl rfl, fun items h => Except.noConfusion h⟩
      | normal c caps =>
        cases htask2 : get_task_by_id db t u with
        | none => exact ⟨Or.inl rfl, fun items h => Except.noConfusion h⟩
        | some task =>
          simp only []
          by_cases hmodel : step.model_name.isNone = true
          · rw [if_pos hmodel]
            cases hsel : select_model_for_step env.selector (to_step_definition step) with
            | error e => exact ⟨Or.inl rfl, fun items h => Except.noConfusion h⟩
            | ok ev => exact ⟨Or.inl rfl, fun items h => Except.noConfusion h⟩
          · rw [if_neg hmodel]
            rw [update_task_step_write db step.id
              { status := some StepStatus.in_progress, started_at := some env.now } rfl]
            cases hsteps2 : get_steps_by_task_id
                { db with
                  steps := db.steps.map (fun r => if r.id == step.id then
                    apply_step_update
                      { status := some StepStatus.in_progress, started_at := some env.now } r
                    else r) }
                task.id task.user_id true with
            | none => exact ⟨Or.inr rfl, fun items h => Except.noConfusion h⟩
            | some all2 =>
              simp only []
              cases hresp : env.llm_complete k
                  (step.model_name.getD "google/gemini-2.5-flash-lite")
                  (build_step_context task step all2) []
                  (build_llm_config_modelled (row_capabilities step)) with
              | error e => exact ⟨Or.inr rfl, fun items h => Except.noConfusion h⟩
              | ok response =>
                simp only []
                cases hcost : calculate_cost env.selector.get_model_by_id
                    (step.model_name.getD "google/gemini-2.5-flash-lite") response []
                    (build_llm_config_modelled (row_capabilities step)) with
                | error e => exact ⟨Or.inr rfl, fun items h => Except.noConfusion h⟩
                | ok cost => exact ⟨Or.inr rfl, fun items h => Except.noConfusion h⟩

/-- Rows returned by a step listing that excludes abandoned rows are stored
rows that are not abandoned. -/
lemma get_steps_by_task_id_mem (db : DB) (tid uid : String) (l : List StepRow)
    (h : get_steps_by_task_id db tid uid true = some l) :
    ∀ s ∈ l, s ∈ db.steps ∧ s.status ≠ StepStatus.abandoned := by
  unfold get_steps_by_task_id at h
  cases htask : get_task_by_id db tid uid with
  | none => rw [htask] at h; exact Option.noConfusion h
  | some task =>
    rw [htask] at h
    simp only [Option.some.injEq] at h
    subst h
    intro s hs
    have hs2 : s ∈ db.steps.filter (fun r =>
        r.task_id == tid && (if true then !(r.status == StepStatus.abandoned) else true)) :=
      (mem_py_sort_by _ s _).mp hs
    have := List.mem_filter.mp hs2
    refine ⟨this.1, ?_⟩
    have h2 := this.2
    simp only [if_true, Bool.and_eq_true, Bool.not_eq_true', beq_eq_false_iff_ne] at h2
    exact h2.2

/-- `decompose_and_queue_task` only ever appends freshly-generated step rows,
and any follow-up items it returns point at stored non-abandoned steps. -/
lemma decompose_effect (env : SysEnv) (t u k : String) (db : DB) :
    (∃ added : List StepRow,
      (decompose_and_queue_task env t u k db).1.steps = db.steps ++ added
      ∧ ∀ r ∈ added, ∃ n, r.id = env.uuid n)
    ∧ (∀ items, (decompose_and_queue_task env t u k db).2 = Except.ok items →
        ∀ it ∈ items, ∃ s2, s2 ∈ (decompose_and_queue_task env t u k db).1.steps
          ∧ it.step_id = some s2.id ∧ s2.status ≠ StepStatus.abandoned) := by
  unfold decompose_and_queue_task
  cases htask : get_task_by_id db t u with
  | none =>
    exact ⟨⟨[], by simp, by simp⟩, fun items h => absurd h (fun h => Except.noConfusion h)⟩
  | some task =>
    simp only []
    cases hdec : env.decompose_oracle task.prompt k with
    | error e =>
      exact ⟨⟨[], by simp, by simp⟩, fun items h => absurd h (fun h => Except.noConfusion h)⟩
    | ok decomposition =>
      simp only []
      have hupd : (update_task_after_steps_generation env task.id decomposition.1
          decomposition.2 db).1
          = { tasks := db.tasks.map (fun t2 =>
                if t2.id == task.id then
                  { t2 with
                    title := some decomposition.1
                    status := TaskStatus.in_progress
                    steps_generated := true }
                else t2)
              steps := db.steps ++ inserted_rows env task.id 0 0 db.next_id decomposition.2
              costs := db.costs
              next_id := db.next_id + decomposition.2.length } := by
        unfold update_task_after_steps_generation
        simp only
        rw [insert_steps_loop_state]
      rw [hupd]
      cases hr2 : (update_task_after_steps_generation env task.id decomposition.1
          decomposition.2 db).2 with
      | none =>
        refine ⟨⟨inserted_rows env task.id 0 0 db.next_id decomposition.2, rfl,
          inserted_rows_id env task.id 0 decomposition.2 0 db.next_id⟩,
          fun items h => absurd h (fun h => Except.noConfusion h)⟩
      | some updated =>
        simp only []
        cases hlist : get_steps_by_task_id
            { tasks := db.tasks.map (fun t2 =>
                if t2.id == task.id then
                  { t2 with
                    title := some decomposition.1
                    status := TaskStatus.in_progress
                    steps_generated := true }
                else t2)
              steps := db.steps ++ inserted_rows env task.id 0 0 db.next_id decomposition.2
              costs := db.costs
              next_id := db.next_id + decomposition.2.length } task.id u true with
        | none =>
          refine ⟨⟨inserted_rows env task.id 0 0 db.next_id decomposition.2, rfl,
            inserted_rows_id env task.id 0 decomposition.2 0 db.next_id⟩,
            fun items h => absurd h (fun h => Except.noConfusion h)⟩
        | some steps2 =>
          cases steps2 with
          | nil =>
            refine ⟨⟨inserted_rows env task.id 0 0 db.next_id decomposition.2, rfl,
              inserted_rows_id env task.id 0 decomposition.2 0 db.next_id⟩, ?_⟩
            intro items h
            simp only [Except.ok.injEq] at h
            subst h
            intro it hit
            cases hit
          | cons s0 rest2 =>
            refine ⟨⟨inserted_rows env task.id 0 0 db.next_id decomposition.2, rfl,
              inserted_rows_id env task.id 0 decomposition.2 0 db.next_id⟩, ?_⟩
            intro items h
            simp only [Except.ok.injEq] at h
            subst h
            intro it hit
            rw [List.mem_singleton] at hit
            subst hit
            have hmem := get_steps_by_task_id_mem _ task.id u (s0 :: rest2) hlist s0
              (List.mem_cons_self s0 rest2)
            exact ⟨s0, hmem.1, rfl, hmem.2⟩

/-- Processing one queue item keeps every row with a given id abandoned and
returns only follow-up items that do not target that id, provided the item
itself does not and fresh ids never collide with it. -/
lemma process_one_keeps_abandoned (env : SysEnv) (item : WorkQueueItem) (db : DB)
    (rid : String)
    (hfreshr : ∀ n, env.uuid n ≠ rid)
    (hP : steps_abandoned_at rid db)
    (hitem : item.step_id ≠ some rid) :
    steps_abandoned_at rid (process_one_item env item db).1
    ∧ ∀ it ∈ (process_one_item env item db).2, it.step_id ≠ some rid := by
  unfold process_one_item
  cases hkind : item.item_type with
  | reevaluate_task => exact ⟨hP, by simp⟩
  | decompose_task =>
    obtain ⟨⟨added, hsteps_eq, hadded⟩, hitems⟩ :=
      decompose_effect env item.task_id item.user_id item.api_key db
    rcases hres : decompose_and_queue_task env item.task_id item.user_id item.api_key db
      with ⟨db2, res⟩
    rw [hres] at hsteps_eq
    have hP2 : steps_abandoned_at rid db2 := by
      intro row hrow hrowid
      simp only at hsteps_eq
      rw [hsteps_eq] at hrow
      rcases List.mem_append.mp hrow with hrow | hrow
      · exact hP row hrow hrowid
      · obtain ⟨n, hn⟩ := hadded row hrow
        exact absurd (hn.symm.trans hrowid) (hfreshr n)
    simp only [hres]
    cases res with
    | ok items2 =>
      refine ⟨hP2, ?_⟩
      intro it hit hcontr
      simp only at hit
      obtain ⟨s2, hs2mem, hs2id, hs2st⟩ := hitems items2 (by rw [hres]) it hit
      rw [hres] at hs2mem
      simp only at hs2mem
      have hs2rid : s2.id = rid := by
        rw [hcontr] at hs2id
        exact (Option.some.injEq _ _).mp hs2id.symm
      exact hs2st (hP2 s2 hs2mem hs2rid)
    | error e =>
      refine ⟨?_, by simp⟩
      intro row hrow hrowid
      simp only [update_task_final_status_steps] at hrow
      exact hP2 row hrow hrowid
  | execute_step =>
    cases hsid : item.step_id with
    | none =>
      refine ⟨?_, by simp⟩
      intro row hrow hrowid
      simp only [update_task_final_status_steps] at hrow
      exact hP row hrow hrowid
    | some s =>
      have hs : s ≠ rid := fun h => hitem (by rw [hsid, h])
      obtain ⟨hor, hnok⟩ :=
        execute_step_effect env s item.task_id item.user_id item.api_key db
      rcases hres : execute_step env s item.task_id item.user_id item.api_key db
        with ⟨db2, res⟩
      rw [hres] at hor hnok
      simp only [hres]
      cases res with
      | ok items2 => exact absurd rfl (hnok items2)
      | error e =>
        refine ⟨?_, by simp⟩
        intro row hrow hrowid
        simp only [update_task_final_status_steps] at hrow
        simp only at hor hrow
        rcases hor with hor | hor
        · rw [hor] at hrow
          exact hP row hrow hrowid
        · rw [hor] at hrow
          obtain ⟨r0, hr0, rfl⟩ := List.mem_map.mp hrow
          by_cases hr0s : (r0.id == s) = true
          · rw [if_pos hr0s] at hrowid ⊢
            rw [apply_step_update_id] at hrowid
            exact absurd (beq_iff_eq.mp hr0s) (by rw [hrowid]; exact fun h => hs h.symm)
          · rw [if_neg hr0s] at hrowid ⊢
            exact hP r0 hr0 hrowid

/-- Running the consumer loop any number of rounds from a store in which
every row with a given id is abandoned, with a queue that never targets that
id, keeps every such row abandoned. -/
lemma run_queue_keeps_abandoned (env : SysEnv) (rid : String)
    (hfreshr : ∀ n, env.uuid n ≠ rid) :
    ∀ (fuel : Nat) (db : DB) (queue : List WorkQueueItem),
    steps_abandoned_at rid db →
    (∀ it ∈ queue, it.step_id ≠ some rid) →
    steps_abandoned_at rid (run_queue env fuel db queue).1 := by
  intro fuel
  induction fuel with
  | zero => intro db q hP _; exact hP
  | succ n ih =>
    intro db q hP hq
    cases q with
    | nil => exact hP
    | cons item rest =>
      rw [run_queue]
      obtain ⟨hP2, hnew⟩ := process_one_keeps_abandoned env item db rid hfreshr hP
        (hq item (List.mem_cons_self item rest))
      refine ih _ _ hP2 ?_
      intro it hit
      rcases List.mem_append.mp hit with h | h
      · exact hq it (List.mem_cons_of_mem _ h)
      · exact hnew it h

/-- The `j`-th row described by `inserted_rows`. -/
lemma inserted_rows_mem (env : SysEnv) (tid : String) (base : Nat) :
    ∀ (ds : List TaskStepDefinition) (i counter j : Nat), j < ds.length →
    ∃ d, step_row_of_def d (env.uuid (counter + j)) tid (base + (i + j))
      ∈ inserted_rows env tid base i counter ds := by
  intro ds
  induction ds with
  | nil => intro i counter j hj; simp at hj
  | cons d rest ih =>
    intro i counter j hj
    cases j with
    | zero =>
      refine ⟨d, ?_⟩
      rw [inserted_rows]
      simp only [Nat.add_zero]
      exact List.mem_cons_self _ _
    | succ j2 =>
      obtain ⟨d2, hd2⟩ := ih (i + 1) (counter + 1) j2
        (by simp only [List.length_cons] at hj; omega)
      refine ⟨d2, ?_⟩
      rw [inserted_rows]
      have h1 : counter + 1 + j2 = counter + (j2 + 1) := by omega
      have h2 : i + 1 + j2 = i + (j2 + 1) := by omega
      rw [h1, h2] at hd2
      exact List.mem_cons_of_mem _ hd2
/-- Claim C8: after a successful reevaluation at a reevaluate step with
step_number `K`, every pre-existing step of that task with `step_number > K`
is `abandoned` and stays `abandoned` through any further run of the consumer
loop seeded with the returned follow-up items, while the newly inserted steps
are `pending` with `step_number = K + 1 + i`.  Hypotheses are the reads the
service performs (task, step, listing, completeness of earlier steps, the
parsed reevaluation plan) plus well-formedness: stored step ids are distinct
and freshly drawn ids collide neither with stored rows nor with each other. -/
theorem reevaluation_abandons_later_steps (env : SysEnv) (db : DB)
    (sid tid uid key : String) (task : TaskRow) (rstep : StepRow)
    (all_steps : List StepRow) (defs : List TaskStepDefinition)
    (htask : get_task_by_id db tid uid = some task)
    (hstep : get_step_by_id db sid = some rstep)
    (htype : rstep.step_type = StepType.reevaluate)
    (hsteps : get_steps_by_task_id db task.id uid true = some all_steps)
    (hcomplete : ((all_steps.filter (fun s =>
        decide (s.step_number < rstep.step_number))).filter
        (fun s => !(s.status == StepStatus.completed))).isEmpty = true)
    (horacle : env.reevaluate_oracle task rstep
        (all_steps.filter (fun s => decide (s.step_number < rstep.step_number))) key
        = Except.ok defs)
    (hnodup : (db.steps.map (fun r => r.id)).Nodup)
    (hfresh : ∀ n, ∀ r ∈ db.steps, env.uuid n ≠ r.id)
    (hinj : ∀ k2 l, k2 < defs.length → l < defs.length → k2 ≠ l →
        env.uuid (db.next_id + k2) ≠ env.uuid (db.next_id + l)) :
    ∃ db1 items,
      reevaluate_and_queue_task env sid tid uid key db = (db1, Except.ok items)
      ∧ (∀ it ∈ items, ∀ r0 ∈ db.steps, it.step_id ≠ some r0.id)
      ∧ (∀ r0 ∈ db.steps, r0.task_id = task.id → rstep.step_number < r0.step_number →
          steps_abandoned_at r0.id db1)
      ∧ (∀ i, i < defs.length → ∃ row ∈ db1.steps,
          row.id = env.uuid (db.next_id + i)
          ∧ row.step_number = rstep.step_number + 1 + i
          ∧ row.status = StepStatus.pending
          ∧ row.task_id = task.id)
      ∧ (∀ fuel, ∀ r0 ∈ db.steps, r0.task_id = task.id →
          rstep.step_number < r0.step_number →
          steps_abandoned_at r0.id (run_queue env fuel db1 items).1) := by
  have hrun := reevaluate_run env db sid tid uid key task rstep all_steps defs
    htask hstep htype hsteps hcomplete horacle
    (fun k2 _ r hr => hfresh (db.next_id + k2) r hr) hinj
  have hstep3 := hstep
  unfold get_step_by_id at hstep3
  have hrstep_mem : rstep ∈ db.steps := List.mem_of_find?_eq_some hstep3
  have hid1 : ∀ (a : StepUpdateArgs) (x : StepRow),
      (if x.id == rstep.id then apply_step_update a x else x).id = x.id := by
    intro a x
    split <;> rfl
  have hid2 : ∀ x : StepRow,
      (if x.task_id == task.id && decide (rstep.step_number < x.step_number) then
        { x with status := StepStatus.abandoned } else x).id = x.id := by
    intro x
    split <;> rfl
  have habandon : ∀ r0 ∈ db.steps, r0.task_id = task.id →
      rstep.step_number < r0.step_number →
      ∀ row ∈ (((db.steps.map (fun r => if r.id == rstep.id then
          apply_step_update
            { status := some StepStatus.in_progress, started_at := some env.now } r
          else r)).map (fun r => if r.id == rstep.id then
          apply_step_update
            { status := some StepStatus.completed, completed_at := some env.now } r
          else r)).map (fun r =>
          if r.task_id == task.id && decide (rstep.step_number < r.step_number) then
            { r with status := StepStatus.abandoned } else r))
        ++ inserted_rows env task.id (rstep.step_number + 1) 0 db.next_id defs,
      row.id = r0.id → row.status = StepStatus.abandoned := by
    intro r0 hr0 htid hnum row hrow hrowid
    rcases List.mem_append.mp hrow with hrow | hrow
    · obtain ⟨x2, hx2, rfl⟩ := List.mem_map.mp hrow
      obtain ⟨x1, hx1, rfl⟩ := List.mem_map.mp hx2
      obtain ⟨x0, hx0, rfl⟩ := List.mem_map.mp hx1
      rw [hid2, hid1, hid1] at hrowid
      have hx0r0 : x0 = r0 :=
        List.inj_on_of_nodup_map hnodup hx0 hr0 hrowid
      subst hx0r0
      have hrne : ¬(x0.id == rstep.id) = true := by
        intro hbe
        have hide := beq_iff_eq.mp hbe
        have hx0rstep : x0 = rstep :=
          List.inj_on_of_nodup_map hnodup hx0 hrstep_mem hide
        rw [hx0rstep] at hnum
        exact absurd hnum (lt_irrefl _)
      rw [if_neg hrne, if_neg hrne]
      have hcond : (x0.task_id == task.id
          && decide (rstep.step_number < x0.step_number)) = true := by
        simp [htid, hnum]
      rw [if_pos hcond]
    · obtain ⟨n, hn⟩ := inserted_rows_id env task.id (rstep.step_number + 1) defs
        0 db.next_id row hrow
      exact absurd (hn.symm.trans hrowid) (hfresh n r0 hr0)
  have hsafe : ∀ it ∈ (if defs.isEmpty then ([] : List WorkQueueItem)
      else [make_task_step_execution_item task (env.uuid db.next_id) key]),
      ∀ r0 ∈ db.steps, it.step_id ≠ some r0.id := by
    cases defs with
    | nil => intro it hit; simp at hit
    | cons d0 drest =>
      intro it hit r0 hr0 hcontr
      simp only [List.isEmpty_cons, Bool.false_eq_true, if_false,
        List.mem_singleton] at hit
      subst hit
      exact hfresh db.next_id r0 hr0 ((Option.some.injEq _ _).mp hcontr)
  refine ⟨_, _, hrun, ?_, ?_, ?_, ?_⟩
  · intro it hit r0 hr0
    exact hsafe it hit r0 hr0
  · intro r0 hr0 htid hnum
    exact habandon r0 hr0 htid hnum
  · intro i hi
    obtain ⟨d, hd⟩ := inserted_rows_mem env task.id (rstep.step_number + 1) defs
      0 db.next_id i hi
    rw [Nat.zero_add] at hd
    exact ⟨step_row_of_def d (env.uuid (db.next_id + i)) task.id
        (rstep.step_number + 1 + i),
      List.mem_append_right _ hd, rfl, rfl, rfl, rfl⟩
  · intro fuel r0 hr0 htid hnum
    exact run_queue_keeps_abandoned env r0.id (fun n => hfresh n r0 hr0) fuel _ _
      (habandon r0 hr0 htid hnum) (fun it hit => hsafe it hit r0 hr0)
/-- Strings starting with the fixture id prefix differ from any string whose
first character is not `n`. -/
lemma uuid_fix_ne (x : String) (t : String) (h : t.data.head? ≠ some 'n') :
    "new-" ++ x ≠ t := by
  intro he
  apply h
  rw [← he]
  rfl

/-- Witness for `reevaluation_abandons_later_steps` on the concrete scenario:
step 0 completed, the reevaluate step at number 1, a pending step at number 2
(to be abandoned), and a one-step reevaluation plan. -/
theorem reevaluation_abandons_later_steps_witness :
    ∃ db1 items,
      reevaluate_and_queue_task sys_env_fix "sr" "t1" "u1" "key" reeval_db_fix
        = (db1, Except.ok items)
      ∧ (∀ it ∈ items, ∀ r0 ∈ reeval_db_fix.steps, it.step_id ≠ some r0.id)
      ∧ (∀ r0 ∈ reeval_db_fix.steps, r0.task_id = sys_task_fix.id →
          reeval_step1_fix.step_number < r0.step_number →
          steps_abandoned_at r0.id db1)
      ∧ (∀ i, i < [TaskStepDefinition.normal_definition "Summarize the findings"
            ComplexityLevel.low []].length →
          ∃ row ∈ db1.steps,
            row.id = sys_env_fix.uuid (reeval_db_fix.next_id + i)
            ∧ row.step_number = reeval_step1_fix.step_number + 1 + i
            ∧ row.status = StepStatus.pending
            ∧ row.task_id = sys_task_fix.id)
      ∧ (∀ fuel, ∀ r0 ∈ reeval_db_fix.steps, r0.task_id = sys_task_fix.id →
          reeval_step1_fix.step_number < r0.step_number →
          steps_abandoned_at r0.id (run_queue sys_env_fix fuel db1 items).1) :=
  reevaluation_abandons_later_steps sys_env_fix reeval_db_fix "sr" "t1" "u1" "key"
    sys_task_fix reeval_step1_fix
    [reeval_step0_fix, reeval_step1_fix, reeval_step2_fix]
    [TaskStepDefinition.normal_definition "Summarize the findings" ComplexityLevel.low []]
    (by decide) (by decide) rfl (by decide) (by decide) rfl (by decide)
    (by
      intro n r hr
      have hr2 : r = reeval_step0_fix ∨ r = reeval_step1_fix ∨ r = reeval_step2_fix := by
        simpa [reeval_db_fix] using hr
      rcases hr2 with rfl | rfl | rfl
      · exact uuid_fix_ne (Nat.repr n) reeval_step0_fix.id (by decide)
      · exact uuid_fix_ne (Nat.repr n) reeval_step1_fix.id (by decide)
      · exact uuid_fix_ne (Nat.repr n) reeval_step2_fix.id (by decide))
    (by
      intro k2 l hk hl hne
      simp only [List.length_cons, List.length_nil] at hk hl
      omega)

end Llimit
